import Mathlib

/-!
Verification development for the job-number generator
(`generate_job_numbers.py`).  The script is a single-pass batch
reconciler: it collects (dept, wr_num, job_num) rows from discovered
sheets, loads a persisted `wr_num → job_number` map from a state sheet,
rehydrates per-department counters from the persisted job numbers,
assigns a job number to every wr_num not yet in the map, and emits a
row update for every row whose current job cell differs from the
decided value (or holds an excluded placeholder).  The I/O layer
(Smartsheet API calls, logging, env vars) is modelled as explicit data;
the assignment, collection, state-store and parsing logic below is a
direct shallow embedding of the Python source.

Python strings are modelled as Lean `String` (a wrapper around
`List Char`); Python `str.isdigit`, `str.lower`, `str.strip` are
modelled on ASCII, which is exact on every value the script's own
formatters and patterns produce.
-/

/-! ### Basic string helpers (models of the Python string primitives) -/

/-- One decimal digit character; argument is taken mod 10 by the callers. -/
def digitChar : Nat → Char
  | 0 => '0' | 1 => '1' | 2 => '2' | 3 => '3' | 4 => '4'
  | 5 => '5' | 6 => '6' | 7 => '7' | 8 => '8' | _ => '9'

/-- Fuel-driven decimal rendering of a natural number, most significant
digit first.  `fuel > n` always suffices. -/
def natDigitsAux : Nat → Nat → List Char
  | 0, _ => []
  | fuel + 1, n =>
    if n < 10 then [digitChar n]
    else natDigitsAux fuel (n / 10) ++ [digitChar (n % 10)]

/-- Decimal rendering of a natural number (model of Python `str(n)` /
`"{n:d}"` for `n ≥ 0`). -/
def natDigits (n : Nat) : List Char := natDigitsAux (n + 1) n

/-- Model of Python `int(s)` on a string of decimal digits. -/
def listToNat (l : List Char) : Nat :=
  l.foldl (fun a c => a * 10 + (c.toNat - 48)) 0

/-- Model of Python `str.isdigit` (ASCII): non-empty and all digits. -/
def pyIsDigitL (l : List Char) : Bool := !l.isEmpty && l.all Char.isDigit

/-- ASCII whitespace, as stripped by Python `str.strip()`. -/
def isSpaceChar (c : Char) : Bool :=
  c = ' ' || c = '\t' || c = '\n' || c = '\r' || c = '\x0b' || c = '\x0c'

/-- Model of Python `str.strip()`. -/
def pyStrip (s : String) : String :=
  ⟨((s.toList.dropWhile isSpaceChar).reverse.dropWhile isSpaceChar).reverse⟩

/-- Model of Python `str.lower()` (ASCII). -/
def pyLower (s : String) : String := ⟨s.toList.map Char.toLower⟩

/-- `starts_with l p` holds when `p` is a prefix of `l`. -/
def starts_with : List Char → List Char → Bool
  | _, [] => true
  | [], _ :: _ => false
  | c :: cs, p :: ps => c = p && starts_with cs ps

/-- Model of Python `pat in hay` (substring containment). -/
def has_substr : List Char → List Char → Bool
  | [], pat => starts_with [] pat
  | c :: rest, pat => starts_with (c :: rest) pat || has_substr rest pat

/-- Model of Python `s.endswith(suf)`. -/
def ends_with (s suf : String) : Bool :=
  starts_with s.toList.reverse suf.toList.reverse

/-- Model of Python `s.split('-')` (single-character separator; keeps
empty segments, `"".split('-') = [""]`). -/
def splitDash : List Char → List (List Char)
  | [] => [[]]
  | c :: rest =>
    if c = '-' then [] :: splitDash rest
    else
      match splitDash rest with
      | g :: gs => (c :: g) :: gs
      | [] => [[c]]

/-! ### Exclusion patterns (`EXCLUDE_PATTERNS`, `should_exclude_value`) -/

/-- `EXCLUDE_PATTERNS` from the script: values containing any of these
(case-insensitively) are never processed. -/
def EXCLUDE_PATTERNS : List String := ["no match", "no match - 004", "not assigned"]

/-- Model of `should_exclude_value(value)`: `None` and `""` are falsy
and return `False`; otherwise the stripped, lowered value is tested for
each pattern as a substring. -/
def should_exclude_value (value : Option String) : Bool :=
  match value with
  | none => false
  | some s =>
    if s = "" then false
    else
      let value_str := pyLower (pyStrip s)
      EXCLUDE_PATTERNS.any fun pat => has_substr value_str.toList (pyLower pat).toList

/-! ### Row collection (main, lines 396–429) -/

/-- A raw sheet row as the collector sees it: the rendered
(`display_value`) text of the three resolved columns, `none` when the
cell is missing or its display value is `None`. -/
structure RawRow where
  sheet_id : Nat
  row_id : Nat
  dept : Option String
  wr_num : Option String
  job_num : Option String
deriving DecidableEq, Repr

/-- A collected row: `dept` and `wr_num` are non-empty and not
excluded; `job_num` is kept as-is for later comparison. -/
structure Row where
  sheet_id : Nat
  row_id : Nat
  dept : String
  wr_num : String
  job_num : Option String
deriving DecidableEq, Repr

/-- `x if x else None`: the collector turns an empty display value into
`None` (Python truthiness on strings). -/
def norm_display : Option String → Option String
  | none => none
  | some s => if s = "" then none else some s

/-- One iteration of the collection loop: the row is kept only when
both `dept` and `wr_num` are present (non-empty) and neither contains
an excluded pattern. -/
def collect_row (r : RawRow) : Option Row :=
  match norm_display r.dept, norm_display r.wr_num with
  | some d, some w =>
    if !should_exclude_value (some d) && !should_exclude_value (some w) then
      some ⟨r.sheet_id, r.row_id, d, w, r.job_num⟩
    else none
  | _, _ => none

/-- `all_rows` accumulated across every discovered sheet. -/
def collect_rows (raws : List RawRow) : List Row := raws.filterMap collect_row

/-! ### Job-number formatting (`analyze_existing_job_number_format`) -/

/-- The four formatting lambdas `analyze_existing_job_number_format`
can return. -/
inductive JobFormatter where
  /-- `lambda dept, counter: f"{dept}-{counter:03d}"` (the default). -/
  | deptPad3 : JobFormatter
  /-- `lambda dept, counter: f"{pre}-{dept}-{counter:03d}"`. -/
  | prefixDeptPad3 (pre : String) : JobFormatter
  /-- `lambda dept, counter: f"{counter:03d}"`. -/
  | numericPad3 : JobFormatter
  /-- `lambda dept, counter: f"{dept}-{counter}"`. -/
  | deptPlain : JobFormatter
deriving DecidableEq, Repr

/-- Model of Python `f"{n:03d}"` for `n ≥ 0`: decimal, left-padded with
zeros to at least three characters. -/
def pad3 (n : Nat) : List Char :=
  let ds := natDigits n
  if ds.length ≥ 3 then ds else List.replicate (3 - ds.length) '0' ++ ds

/-- Apply one of the four formatting lambdas. -/
def applyFormatter : JobFormatter → String → Nat → String
  | .deptPad3, dept, c => ⟨dept.toList ++ '-' :: pad3 c⟩
  | .prefixDeptPad3 pre, dept, c => ⟨pre.toList ++ '-' :: dept.toList ++ '-' :: pad3 c⟩
  | .numericPad3, _, c => ⟨pad3 c⟩
  | .deptPlain, dept, c => ⟨dept.toList ++ '-' :: natDigits c⟩

/-- The job numbers fed to format analysis: truthy, non-blank after
strip, and not excluded; the analysed value is the stripped text,
paired with the row's department. -/
def qualifying_jobs (all_rows : List Row) : List (String × String) :=
  all_rows.filterMap fun e =>
    match e.job_num with
    | some j =>
      if j != "" && pyStrip j != "" && !should_exclude_value (some j) then
        some (e.dept, pyStrip j)
      else none
    | none => none

/-- First-occurrence-preserving deduplication (insertion order of a
Python dict's keys). -/
def dedupFirst (l : List String) : List String :=
  l.foldl (fun acc x => if x ∈ acc then acc else acc ++ [x]) []

/-- `dept_patterns`: job numbers grouped by department, keys in first
occurrence order, values in encounter order. -/
def dept_patterns (quals : List (String × String)) : List (String × List String) :=
  (dedupFirst (quals.map Prod.fst)).map fun d =>
    (d, (quals.filter fun q => q.1 = d).map Prod.snd)

/-- One iteration of the per-sample pattern loop: the pattern string
assigned (and the `break` taken) for this sample, or `none` when the
loop falls through to the next sample.  `num_part.zfill(len(num_part))`
is the identity and is simplified away. -/
def classify_sample (s : String) : Option String :=
  let l := s.toList
  if l.count '-' = 1 then
    match splitDash l with
    | [_, p1] =>
      if pyIsDigitL p1 then
        some (if p1.length ≥ 3 then ⟨"DEPT-".toList ++ p1⟩ else "DEPT-NUM")
      else none
    | _ => none
  else if l.count '-' = 2 then
    match splitDash l with
    | [p0, _, p2] =>
      if pyIsDigitL p2 then some ⟨p0 ++ "-DEPT-".toList ++ p2⟩ else none
    | _ => none
  else if pyIsDigitL l then some "NUMERIC"
  else if l.any Char.isDigit then some "CUSTOM"
  else none

/-- The pattern recorded for one department: first of (up to) three
samples that triggers an assignment. -/
def classify_dept (jobs : List String) : Option String :=
  (jobs.take 3).findSome? classify_sample

/-- `pattern_analysis`: departments (in first-occurrence order) paired
with their detected pattern; departments whose samples all fall through
are absent. -/
def pattern_analysis (quals : List (String × String)) : List (String × String) :=
  (dept_patterns quals).filterMap fun dj => (classify_dept dj.2).map ((dj.1, ·))

/-- The fallback at the end of `analyze_existing_job_number_format`:
regex-sniff the first existing job number
(`^[A-Z]+-\d{3}$` / `^[A-Z]+-\d+$`), defaulting to `DEPT-###`. -/
def matches_upper_dash3 (s : String) : Bool :=
  match splitDash s.toList with
  | [a, b] => !a.isEmpty && a.all (fun c => 'A' ≤ c && c ≤ 'Z')
      && b.length = 3 && b.all Char.isDigit
  | _ => false

/-- `^[A-Z]+-\d+$` (any number of digits). -/
def matches_upper_dashnum (s : String) : Bool :=
  match splitDash s.toList with
  | [a, b] => !a.isEmpty && a.all (fun c => 'A' ≤ c && c ≤ 'Z')
      && !b.isEmpty && b.all Char.isDigit
  | _ => false

/-- The final fallback block of `analyze_existing_job_number_format`,
given the first existing job number. -/
def fallback_format (sample : String) : JobFormatter :=
  if matches_upper_dash3 sample then .deptPad3
  else if matches_upper_dashnum sample then .deptPlain
  else .deptPad3

/-- Model of `analyze_existing_job_number_format(all_rows)`: with no
qualifying existing job numbers the default `DEPT-###` formatter is
returned, otherwise the first recorded pattern decides, falling back to
regex sniffing of the first existing number. -/
def analyze_existing_job_number_format (all_rows : List Row) : JobFormatter :=
  let quals := qualifying_jobs all_rows
  match quals.map Prod.snd with
  | [] => .deptPad3
  | sample0 :: _ =>
    match pattern_analysis quals with
    | [] => fallback_format sample0
    | (_, detected) :: _ =>
      if has_substr detected.toList "DEPT-000".toList || ends_with detected "001" then
        .deptPad3
      else if detected.toList.count '-' = 2 then
        match splitDash detected.toList with
        | p0 :: _ :: _ :: _ => .prefixDeptPad3 ⟨p0⟩
        | _ => fallback_format sample0
      else if detected = "NUMERIC" then .numericPad3
      else if detected = "DEPT-NUM" then .deptPlain
      else fallback_format sample0

/-! ### Counter rehydration (main, lines 440–459) -/

/-- The department/number credit the rehydration loop extracts from one
persisted job number: requires a `'-'`, at least two segments (implied
by the dash) and an all-digit last segment; the credited department is
the second-to-last segment.  The `elif` at line 453 is unreachable
(`'-' in jobnum` already forces `len(parts) ≥ 2`) and the
`except (ValueError, IndexError)` can never fire on ASCII digits, so
the model is a total function returning `none` exactly where the loop
silently skips. -/
def parse_job_credit (jn : String) : Option (String × Nat) :=
  if jn.toList.contains '-' then
    match (splitDash jn.toList).reverse with
    | lastSeg :: deptSeg :: _ =>
      if pyIsDigitL lastSeg then some (⟨deptSeg⟩, listToNat lastSeg) else none
    | _ => none
  else none

/-- `dept_counters[dept] = max(dept_counters[dept], num)` for one
persisted job number. -/
def bump_counter (cs : String → Nat) (kv : String × String) : String → Nat :=
  match parse_job_credit kv.2 with
  | some dn => fun d2 => if d2 = dn.1 then max (cs d2) dn.2 else cs d2
  | none => cs

/-- `dept_counters` after the rehydration loop over
`wr_to_job_map.values()` (a `defaultdict(int)`, so every department
starts at 0). -/
def rehydrate_counters (state : List (String × String)) : String → Nat :=
  state.foldl bump_counter (fun _ => 0)

/-- The trailing all-digit segment of a job number, as an integer
(the "numeric suffix" of the default formats). -/
def numeric_suffix (jn : String) : Option Nat :=
  match (splitDash jn.toList).getLast? with
  | some seg => if pyIsDigitL seg then some (listToNat seg) else none
  | none => none

/-! ### Assignment and update computation (main, lines 461–504) -/

/-- One emitted row update: the job cell of `(sheet_id, row_id)` is to
be written with `value`.  (The script batches these per sheet; zero
updates overall is the same condition in either representation.) -/
structure RowUpdate where
  sheet_id : Nat
  row_id : Nat
  value : String
deriving DecidableEq, Repr

/-- First-match lookup in the `wr_num → job_number` association list
(model of the Python dict). -/
def lookupS : List (String × String) → String → Option String
  | [], _ => none
  | kv :: rest, w => if kv.1 = w then some kv.2 else lookupS rest w

/-- The accumulator of the assignment loop: the (mutated)
`wr_to_job_map`, the `dept_counters`, and the updates emitted so far. -/
structure AllocResult where
  state : List (String × String)
  counters : String → Nat
  updates : List RowUpdate

/-- `wr_row_map[wr_num]`: all collected rows of one wr, in collection
order. -/
def entries_for (rows : List Row) (w : String) : List Row :=
  rows.filter fun r => r.wr_num = w

/-- `needs_update = (current_job_num != job_number or
should_exclude_value(current_job_num))`. -/
def needs_update (current : Option String) (jn : String) : Bool :=
  decide (current ≠ some jn) || should_exclude_value current

/-- The update the writer queues for one row. -/
def mk_update (r : Row) (jn : String) : RowUpdate := ⟨r.sheet_id, r.row_id, jn⟩

/-- The updates queued for all entries of one wr, given its decided job
number. -/
def row_updates (entries : List Row) (jn : String) : List RowUpdate :=
  entries.filterMap fun e =>
    if needs_update e.job_num jn then some (mk_update e jn) else none

/-- One iteration of the assignment loop over `wr_row_map.items()`:
reuse the stored number when `wr_num` is already in the map, otherwise
increment the department counter of the first entry's department and
format a new number; then queue updates for every entry of the wr. -/
def processWr (fmt : JobFormatter) (rows : List Row) (acc : AllocResult) (w : String) :
    AllocResult :=
  match lookupS acc.state w with
  | some jn => { acc with updates := acc.updates ++ row_updates (entries_for rows w) jn }
  | none =>
    match entries_for rows w with
    | [] => acc
    | e :: es =>
      let d := e.dept
      let c := acc.counters d + 1
      let jn := applyFormatter fmt d c
      { state := acc.state ++ [(w, jn)]
        counters := fun d2 => if d2 = d then c else acc.counters d2
        updates := acc.updates ++ row_updates (e :: es) jn }

/-- The whole assignment phase for a given formatter: counters are
rehydrated from the loaded state, then every unique `wr_num` (first
occurrence order, the iteration order of `wr_row_map`) is processed. -/
def runAllocation (fmt : JobFormatter) (state0 : List (String × String)) (rows : List Row) :
    AllocResult :=
  (dedupFirst (rows.map (·.wr_num))).foldl (processWr fmt rows)
    ⟨state0, rehydrate_counters state0, []⟩

/-- The allocation phase of `main` over the collected rows and the
loaded state: format detection, counter rehydration, assignment, update
computation.  `.state` is the map handed to `save_state` at run end. -/
def run_allocation_phase (state0 : List (String × String)) (rows : List Row) : AllocResult :=
  runAllocation (analyze_existing_job_number_format rows) state0 rows

/-! ### JSON serialization of the state map

`save_state` stores `json.dumps(state_data, indent=2)` in the value
cell; `load_state` recovers it with `json.loads`.  Both live in
Python's standard library; they are modelled here concretely on the
fragment the state store uses — objects whose members are strings —
with Python's exact text format (`ensure_ascii` escaping, `indent=2`,
`", "`/`": "` separators) and a parser that accepts that grammar
(arbitrary JSON whitespace, both hex cases, all short escapes,
surrogate pairs) and rejects everything else.  `json_loads_state s =
none` models `json.loads` raising (or yielding a non-string-object
document, which the state store never produces). -/

/-- Lower-case hex digit (Python `json` emits lower case). -/
def hexChar : Nat → Char
  | 0 => '0' | 1 => '1' | 2 => '2' | 3 => '3' | 4 => '4'
  | 5 => '5' | 6 => '6' | 7 => '7' | 8 => '8' | 9 => '9'
  | 10 => 'a' | 11 => 'b' | 12 => 'c' | 13 => 'd' | 14 => 'e' | _ => 'f'

/-- Four-digit hex rendering used by `\uXXXX` escapes. -/
def hex4 (n : Nat) : List Char :=
  [hexChar (n / 4096 % 16), hexChar (n / 256 % 16), hexChar (n / 16 % 16), hexChar (n % 16)]

/-- `json.dumps` escaping of one character with `ensure_ascii=True`:
printable ASCII other than `"` and `\` is literal, the common controls
get short escapes, everything else becomes `\uXXXX` (a surrogate pair
above the BMP). -/
def escape_char (c : Char) : List Char :=
  if c = '"' then ['\\', '"']
  else if c = '\\' then ['\\', '\\']
  else if c = '\n' then ['\\', 'n']
  else if c = '\r' then ['\\', 'r']
  else if c = '\t' then ['\\', 't']
  else if c = '\x08' then ['\\', 'b']
  else if c = '\x0c' then ['\\', 'f']
  else if c.toNat < 0x20 then '\\' :: 'u' :: hex4 c.toNat
  else if c.toNat < 0x7f then [c]
  else if c.toNat < 0x10000 then '\\' :: 'u' :: hex4 c.toNat
  else
    '\\' :: 'u' :: hex4 (0xD800 + (c.toNat - 0x10000) / 0x400) ++
      '\\' :: 'u' :: hex4 (0xDC00 + (c.toNat - 0x10000) % 0x400)

/-- Escape every character of a string body. -/
def escape_chars : List Char → List Char
  | [] => []
  | c :: rest => escape_char c ++ escape_chars rest

/-- A JSON string literal: `"` body `"`. -/
def encode_string (s : String) : List Char :=
  '"' :: escape_chars s.toList ++ ['"']

/-- One `indent=2` member line: two spaces, key, `": "`, value. -/
def encode_member (kv : String × String) : List Char :=
  ' ' :: ' ' :: encode_string kv.1 ++ ':' :: ' ' :: encode_string kv.2

/-- The member lines joined by `",\n"`. -/
def encode_members : List (String × String) → List Char
  | [] => []
  | [kv] => encode_member kv
  | kv :: rest => encode_member kv ++ ',' :: '\n' :: encode_members rest

/-- Model of `json.dumps(state, indent=2)` for a string-valued map. -/
def json_dumps_state (st : List (String × String)) : String :=
  match st with
  | [] => ⟨['\x7b', '\x7d']⟩
  | _ => ⟨'\x7b' :: '\n' :: encode_members st ++ ['\n', '\x7d']⟩

/-- Value of one hex digit (`json.loads` accepts both cases). -/
def hex_val (c : Char) : Option Nat :=
  if '0' ≤ c ∧ c ≤ '9' then some (c.toNat - '0'.toNat)
  else if 'a' ≤ c ∧ c ≤ 'f' then some (c.toNat - 'a'.toNat + 10)
  else if 'A' ≤ c ∧ c ≤ 'F' then some (c.toNat - 'A'.toNat + 10)
  else none

/-- JSON insignificant whitespace. -/
def skip_json_ws : List Char → List Char
  | [] => []
  | c :: rest =>
    if c = ' ' || c = '\t' || c = '\n' || c = '\r' then skip_json_ws rest else c :: rest

/-- Result of reading one lexeme of a string literal body. -/
inductive StrTok where
  /-- The closing quote was reached; `rest` follows it. -/
  | done (rest : List Char) : StrTok
  /-- One character `c` of the decoded text was read; `rest` remains. -/
  | ch (c : Char) (rest : List Char) : StrTok
  /-- The input is not a valid string-literal body here. -/
  | bad : StrTok
deriving DecidableEq, Repr

/-- Read the low half of a surrogate pair (`\\uDC00`–`\\uDFFF`) after a
high surrogate `hi`, combining the two as `json.loads` does. -/
def read_low_surrogate (hi : Nat) : List Char → StrTok
  | b1 :: u1 :: g1 :: g2 :: g3 :: g4 :: rest4 =>
    if b1 = '\\' ∧ u1 = 'u' then
      match hex_val g1, hex_val g2, hex_val g3, hex_val g4 with
      | some y1, some y2, some y3, some y4 =>
        if 0xDC00 ≤ 4096 * y1 + 256 * y2 + 16 * y3 + y4 ∧
            4096 * y1 + 256 * y2 + 16 * y3 + y4 < 0xE000 then
          StrTok.ch (Char.ofNat (0x10000 + (hi - 0xD800) * 0x400 +
            (4096 * y1 + 256 * y2 + 16 * y3 + y4 - 0xDC00))) rest4
        else StrTok.bad
      | _, _, _, _ => StrTok.bad
    else StrTok.bad
  | _ => StrTok.bad

/-- Read a `\\uXXXX` escape (after the `\\u`): a high surrogate must be
followed by a low one; a lone surrogate — which `json.dumps` never
emits for valid text — is rejected. -/
def read_u_escape : List Char → StrTok
  | h1 :: h2 :: h3 :: h4 :: rest3 =>
    match hex_val h1, hex_val h2, hex_val h3, hex_val h4 with
    | some x1, some x2, some x3, some x4 =>
      if 0xD800 ≤ 4096 * x1 + 256 * x2 + 16 * x3 + x4 ∧
          4096 * x1 + 256 * x2 + 16 * x3 + x4 < 0xDC00 then
        read_low_surrogate (4096 * x1 + 256 * x2 + 16 * x3 + x4) rest3
      else if 0xDC00 ≤ 4096 * x1 + 256 * x2 + 16 * x3 + x4 ∧
          4096 * x1 + 256 * x2 + 16 * x3 + x4 < 0xE000 then StrTok.bad
      else StrTok.ch (Char.ofNat (4096 * x1 + 256 * x2 + 16 * x3 + x4)) rest3
    | _, _, _, _ => StrTok.bad
  | _ => StrTok.bad

/-- Read one escape sequence (after the backslash). -/
def read_escape : List Char → StrTok
  | [] => StrTok.bad
  | e :: rest2 =>
    if e = '"' then StrTok.ch '"' rest2
    else if e = '\\' then StrTok.ch '\\' rest2
    else if e = '/' then StrTok.ch '/' rest2
    else if e = 'b' then StrTok.ch '\x08' rest2
    else if e = 'f' then StrTok.ch '\x0c' rest2
    else if e = 'n' then StrTok.ch '\n' rest2
    else if e = 'r' then StrTok.ch '\r' rest2
    else if e = 't' then StrTok.ch '\t' rest2
    else if e = 'u' then read_u_escape rest2
    else StrTok.bad

/-- Read one lexeme of a string-literal body (strict mode: raw control
characters are rejected). -/
def read_string_tok : List Char → StrTok
  | [] => StrTok.bad
  | c :: rest =>
    if c = '"' then StrTok.done rest
    else if c = '\\' then read_escape rest
    else if c.toNat < 0x20 then StrTok.bad
    else StrTok.ch c rest

/-- Parse the body of a string literal up to its closing quote by
reading lexemes; each lexeme consumes at least one input character, so
`fuel` bounds the loop (`input length + 1` always suffices). -/
def parse_string_body : Nat → List Char → Option (List Char × List Char)
  | 0, _ => none
  | fuel + 1, l =>
    match read_string_tok l with
    | StrTok.done rest => some ([], rest)
    | StrTok.ch c rest => (parse_string_body fuel rest).map fun sr => (c :: sr.1, sr.2)
    | StrTok.bad => none

/-- Parse a full string literal starting at an opening quote. -/
def parse_json_string (l : List Char) : Option (String × List Char) :=
  match l with
  | '"' :: rest => (parse_string_body (rest.length + 1) rest).map fun sr => (⟨sr.1⟩, sr.2)
  | _ => none

/-- Parse the members of a non-empty object, one per fuel unit:
`"key" : "value"` then either `,` (more members) or `}` (done). -/
def parse_members : Nat → List Char → Option (List (String × String) × List Char)
  | 0, _ => none
  | fuel + 1, input =>
    match parse_json_string (skip_json_ws input) with
    | none => none
    | some (k, r1) =>
      match skip_json_ws r1 with
      | [] => none
      | c1 :: r2 =>
        if c1 = ':' then
          match parse_json_string (skip_json_ws r2) with
          | none => none
          | some (v, r3) =>
            match skip_json_ws r3 with
            | [] => none
            | c2 :: r4 =>
              if c2 = ',' then (parse_members fuel r4).map fun mr => ((k, v) :: mr.1, mr.2)
              else if c2 = '\x7d' then some ([(k, v)], r4)
              else none
        else none

/-- Model of `json.loads` on the state store's documents: a single
object with string members, nothing but whitespace after it.  `none`
models `json.loads` raising on malformed text (or yielding a document
outside the string-object fragment, which the state store never
writes). -/
def json_loads_state (s : String) : Option (List (String × String)) :=
  match skip_json_ws s.toList with
  | [] => none
  | c :: rest =>
    if c = '\x7b' then
      match skip_json_ws rest with
      | [] => none
      | c2 :: r2 =>
        if c2 = '\x7d' then (if skip_json_ws r2 = [] then some [] else none)
        else
          match parse_members (rest.length + 1) rest with
          | some mr => if skip_json_ws mr.2 = [] then some mr.1 else none
          | none => none
    else none

/-! ### The state sheet and the State Store Adapter
(`get_state_sheet_columns`, `load_state`, `save_state`) -/

/-- `STATE_DATA_KEY`: the sentinel key value. -/
def STATE_DATA_KEY : String := "StateData"

/-- One cell of the state sheet (`cell.value`; `none` for an empty
cell). -/
structure SCell where
  column_id : Nat
  value : Option String
deriving DecidableEq, Repr

/-- One row of the state sheet. -/
structure SRow where
  id : Nat
  cells : List SCell
deriving DecidableEq, Repr

/-- One column of the state sheet (`column.title` may be unset). -/
structure SColumn where
  id : Nat
  title : Option String
deriving DecidableEq, Repr

/-- The state sheet as the collaborator reports it.  The collaborator
itself is modelled as `Option StateSheet`: `none` is the sheet-not-found
condition (`ApiError` 1006 from `get_sheet`). -/
structure StateSheet where
  columns : List SColumn
  rows : List SRow
deriving DecidableEq, Repr

/-- Model of `get_state_sheet_columns(client)`: scan the columns,
remembering the ids of those titled (case-insensitively) `key` and
`value`; `none` models the raised exception — both when the sheet is
absent (the caught `ApiError` 1006 is re-raised as a generic
`Exception`) and when either column is missing. -/
def get_state_sheet_columns (sheet : Option StateSheet) : Option (Nat × Nat) :=
  match sheet with
  | none => none
  | some sh =>
    let m := sh.columns.foldl
      (fun (acc : Option Nat × Option Nat) col =>
        match col.title with
        | none => acc
        | some t =>
          if pyLower t = "key" then (some col.id, acc.2)
          else if pyLower t = "value" then (acc.1, some col.id)
          else acc)
      (none, none)
    match m with
    | (some k, some v) => some (k, v)
    | _ => none

/-- `next((cell for cell in row.cells if cell.column_id == keyCol)) …
== STATE_DATA_KEY`: is this row the sentinel state row? -/
def is_state_key_row (row : SRow) (keyCol : Nat) : Bool :=
  match row.cells.find? fun c => c.column_id = keyCol with
  | some c => c.value = some STATE_DATA_KEY
  | none => false

/-- The truthy value of the row's value cell, if any (`None` cells and
empty strings are falsy and make `load_state` keep scanning). -/
def row_state_value (row : SRow) (valCol : Nat) : Option String :=
  match row.cells.find? fun c => c.column_id = valCol with
  | some c =>
    match c.value with
    | some s => if s = "" then none else some s
    | none => none
  | none => none

/-- The `for row in state_sheet.rows` loop of `load_state`: the first
sentinel row with a truthy value cell supplies the JSON text; sentinel
rows with a falsy value cell are passed over. -/
def scan_state_rows : List SRow → Nat → Nat → Option String
  | [], _, _ => none
  | row :: rest, keyCol, valCol =>
    if is_state_key_row row keyCol then
      match row_state_value row valCol with
      | some s => some s
      | none => scan_state_rows rest keyCol valCol
    else scan_state_rows rest keyCol valCol

/-- Result of `load_state`: the returned map, or a propagated
exception. -/
inductive LoadResult where
  | ok (st : List (String × String)) : LoadResult
  | raised : LoadResult
deriving DecidableEq, Repr

/-- Model of `load_state(client)`.  Note the order of operations in the
source: `get_state_sheet_columns` runs first and converts a
sheet-not-found `ApiError` into a generic `Exception`, so the
`error_code == 1006 → return {}` handler inside `load_state` is
unreachable and an absent state sheet propagates an exception. -/
def load_state (sheet : Option StateSheet) : LoadResult :=
  match get_state_sheet_columns sheet with
  | none => LoadResult.raised
  | some kv =>
    match sheet with
    | none => LoadResult.raised
    | some sh =>
      match scan_state_rows sh.rows kv.1 kv.2 with
      | none => LoadResult.ok []
      | some s =>
        match json_loads_state s with
        | some st => LoadResult.ok st
        | none => LoadResult.ok []

/-- `for row in state_sheet.rows: … state_row_id = row.id; break` —
the id of the first sentinel row, if any. -/
def find_state_row_id : List SRow → Nat → Option Nat
  | [], _ => none
  | row :: rest, keyCol =>
    if is_state_key_row row keyCol then some row.id else find_state_row_id rest keyCol

/-- The collaborator's effect of `update_rows` on one row's cell list:
the value of the (first) cell in the given column is replaced; the cell
is created when the row has none in that column. -/
def set_cell_value : List SCell → Nat → String → List SCell
  | [], colId, v => [⟨colId, some v⟩]
  | c :: cs, colId, v =>
    if c.column_id = colId then ⟨colId, some v⟩ :: cs
    else c :: set_cell_value cs colId v

/-- Model of `save_state(client, state_data)` together with the
collaborator's state change: serialize the map, then update the value
cell of the first sentinel row, or append a fresh row (with
collaborator-assigned id `newRowId`) carrying the key and value cells.
`none` models the exception path (column resolution failed). -/
def save_state (sheet : Option StateSheet) (state : List (String × String)) (newRowId : Nat) :
    Option StateSheet :=
  match get_state_sheet_columns sheet, sheet with
  | some kv, some sh =>
    let state_json := json_dumps_state state
    match find_state_row_id sh.rows kv.1 with
    | some rid =>
      some { sh with rows := sh.rows.map fun r =>
        if r.id = rid then { r with cells := set_cell_value r.cells kv.2 state_json } else r }
    | none =>
      some { sh with rows := sh.rows ++
        [⟨newRowId, [⟨kv.1, some STATE_DATA_KEY⟩, ⟨kv.2, some state_json⟩]⟩] }
  | _, _ => none

/-! ### Lemmas about lookup and the assignment fold -/

theorem lookupS_append (l ext : List (String × String)) (w : String) :
    lookupS (l ++ ext) w = ((lookupS l w).orElse fun _ => lookupS ext w) := by
  induction l with
  | nil => simp [lookupS]
  | cons kv rest ih =>
    by_cases hk : kv.1 = w <;> simp [lookupS, hk, ih]

theorem lookupS_append_some {l : List (String × String)} {w j : String}
    (ext : List (String × String)) (h : lookupS l w = some j) :
    lookupS (l ++ ext) w = some j := by
  rw [lookupS_append, h]; rfl

theorem lookupS_singleton (k j w : String) :
    lookupS [(k, j)] w = if k = w then some j else none := by
  simp [lookupS]

theorem processWr_state_lookup (fmt : JobFormatter) (rows : List Row) (acc : AllocResult)
    (k : String) {w j : String} (h : lookupS acc.state w = some j) :
    lookupS (processWr fmt rows acc k).state w = some j := by
  unfold processWr
  cases hl : lookupS acc.state k with
  | some jn => simpa using h
  | none =>
    cases he : entries_for rows k with
    | nil => simpa using h
    | cons e es => simpa using lookupS_append_some _ h

theorem processWr_counters_mono (fmt : JobFormatter) (rows : List Row) (acc : AllocResult)
    (k d : String) : acc.counters d ≤ (processWr fmt rows acc k).counters d := by
  unfold processWr
  cases hl : lookupS acc.state k with
  | some jn => simp
  | none =>
    cases he : entries_for rows k with
    | nil => simp
    | cons e es =>
      by_cases hd : d = e.dept <;> simp [hd]

theorem processWr_updates_mono (fmt : JobFormatter) (rows : List Row) (acc : AllocResult)
    (k : String) {u : RowUpdate} (h : u ∈ acc.updates) :
    u ∈ (processWr fmt rows acc k).updates := by
  unfold processWr
  cases hl : lookupS acc.state k with
  | some jn => simpa using Or.inl h
  | none =>
    cases he : entries_for rows k with
    | nil => simpa using h
    | cons e es => simpa using Or.inl h

theorem processWr_state_ext (fmt : JobFormatter) (rows : List Row) (acc : AllocResult)
    (k : String) : ∃ ext, (processWr fmt rows acc k).state = acc.state ++ ext := by
  unfold processWr
  cases hl : lookupS acc.state k with
  | some jn => exact ⟨[], by simp⟩
  | none =>
    cases he : entries_for rows k with
    | nil => exact ⟨[], by simp⟩
    | cons e es => exact ⟨_, rfl⟩

theorem fold_state_lookup (fmt : JobFormatter) (rows : List Row) :
    ∀ (ks : List String) (acc : AllocResult) {w j : String},
    lookupS acc.state w = some j →
    lookupS ((ks.foldl (processWr fmt rows) acc)).state w = some j := by
  intro ks
  induction ks with
  | nil => intro acc w j h; simpa using h
  | cons k ks ih =>
    intro acc w j h
    exact ih _ (processWr_state_lookup fmt rows acc k h)

theorem fold_counters_mono (fmt : JobFormatter) (rows : List Row) :
    ∀ (ks : List String) (acc : AllocResult) (d : String),
    acc.counters d ≤ ((ks.foldl (processWr fmt rows) acc)).counters d := by
  intro ks
  induction ks with
  | nil => intro acc d; simp
  | cons k ks ih =>
    intro acc d
    exact le_trans (processWr_counters_mono fmt rows acc k d) (ih _ d)

theorem fold_updates_mono (fmt : JobFormatter) (rows : List Row) :
    ∀ (ks : List String) (acc : AllocResult) {u : RowUpdate},
    u ∈ acc.updates → u ∈ ((ks.foldl (processWr fmt rows) acc)).updates := by
  intro ks
  induction ks with
  | nil => intro acc u h; simpa using h
  | cons k ks ih =>
    intro acc u h
    exact ih _ (processWr_updates_mono fmt rows acc k h)

theorem fold_state_ext (fmt : JobFormatter) (rows : List Row) :
    ∀ (ks : List String) (acc : AllocResult),
    ∃ ext, ((ks.foldl (processWr fmt rows) acc)).state = acc.state ++ ext := by
  intro ks
  induction ks with
  | nil => intro acc; exact ⟨[], by simp⟩
  | cons k ks ih =>
    intro acc
    obtain ⟨e1, he1⟩ := processWr_state_ext fmt rows acc k
    obtain ⟨e2, he2⟩ := ih (processWr fmt rows acc k)
    exact ⟨e1 ++ e2, by rw [List.foldl_cons, he2, he1, List.append_assoc]⟩

theorem mem_row_updates {entries : List Row} {jn : String} {u : RowUpdate}
    (h : u ∈ row_updates entries jn) : ∃ r ∈ entries, u = mk_update r jn := by
  unfold row_updates at h
  rw [List.mem_filterMap] at h
  obtain ⟨r, hr, heq⟩ := h
  by_cases hn : needs_update r.job_num jn
  · exact ⟨r, hr, by simpa [hn] using heq.symm⟩
  · simp [hn] at heq

theorem row_updates_cover {entries : List Row} {jn : String} {r : Row} (hr : r ∈ entries) :
    mk_update r jn ∈ row_updates entries jn ∨
      (r.job_num = some jn ∧ should_exclude_value r.job_num = false) := by
  by_cases hn : needs_update r.job_num jn
  · exact Or.inl (List.mem_filterMap.mpr ⟨r, hr, by simp [hn]⟩)
  · right
    unfold needs_update at hn
    simp only [Bool.or_eq_true, decide_eq_true_eq, not_or] at hn
    push_neg at hn
    exact ⟨hn.1, by simpa using hn.2⟩

theorem mem_entries_for {rows : List Row} {w : String} {r : Row} :
    r ∈ entries_for rows w ↔ r ∈ rows ∧ r.wr_num = w := by
  unfold entries_for
  rw [List.mem_filter]
  simp

/-- After processing key `k`, the state resolves `k` — provided `k` has
at least one entry (always true for the keys of `wr_row_map`) — and the
updates queued for `k`'s entries carry exactly that job number. -/
theorem processWr_resolves (fmt : JobFormatter) (rows : List Row) (acc : AllocResult)
    {k : String} {e : Row} (he : e ∈ entries_for rows k) :
    ∃ jn, lookupS (processWr fmt rows acc k).state k = some jn ∧
      (processWr fmt rows acc k).updates = acc.updates ++ row_updates (entries_for rows k) jn := by
  unfold processWr
  cases hl : lookupS acc.state k with
  | some jn => exact ⟨jn, by simpa using hl, by simp⟩
  | none =>
    cases hent : entries_for rows k with
    | nil => rw [hent] at he; cases he
    | cons e0 es =>
      refine ⟨applyFormatter fmt e0.dept (acc.counters e0.dept + 1), ?_, by simp [hent]⟩
      simp only
      rw [lookupS_append, hl, lookupS_singleton]
      simp

/-- One fold step preserves the source invariant of the queued updates:
each update originates in a collected row whose entry in the current
map is the written value. -/
theorem processWr_updates_source (fmt : JobFormatter) (rows : List Row) (acc : AllocResult)
    (k : String)
    (h : ∀ u ∈ acc.updates, ∃ r, r ∈ rows ∧ r.sheet_id = u.sheet_id ∧ r.row_id = u.row_id ∧
        lookupS acc.state r.wr_num = some u.value) :
    ∀ u ∈ (processWr fmt rows acc k).updates,
      ∃ r, r ∈ rows ∧ r.sheet_id = u.sheet_id ∧ r.row_id = u.row_id ∧
        lookupS (processWr fmt rows acc k).state r.wr_num = some u.value := by
  intro u hu
  unfold processWr at hu ⊢
  cases hl : lookupS acc.state k with
  | some jn =>
    rw [hl] at hu
    simp only [List.mem_append] at hu
    simp only
    cases hu with
    | inl hu => exact h u hu
    | inr hu =>
      obtain ⟨r, hre, hueq⟩ := mem_row_updates hu
      obtain ⟨hr, hwr⟩ := mem_entries_for.mp hre
      subst hueq
      exact ⟨r, hr, rfl, rfl, by rw [hwr]; exact hl⟩
  | none =>
    rw [hl] at hu
    cases hent : entries_for rows k with
    | nil =>
      rw [hent] at hu
      simp only [hl, hent]
      exact h u hu
    | cons e0 es =>
      rw [hent] at hu
      simp only [List.mem_append] at hu
      simp only [hl, hent]
      cases hu with
      | inl hu =>
        obtain ⟨r, hr, h1, h2, h3⟩ := h u hu
        exact ⟨r, hr, h1, h2, lookupS_append_some _ h3⟩
      | inr hu =>
        have hu' : u ∈ row_updates (entries_for rows k)
            (applyFormatter fmt e0.dept (acc.counters e0.dept + 1)) := by
          rw [hent]; exact hu
        obtain ⟨r, hre, hueq⟩ := mem_row_updates hu'
        obtain ⟨hr, hwr⟩ := mem_entries_for.mp hre
        subst hueq
        refine ⟨r, hr, rfl, rfl, ?_⟩
        simp only [mk_update, hwr]
        rw [lookupS_append, hl, lookupS_singleton]
        simp

/-- Invariant transfer for the source of every queued update: each
update originates in a collected row whose decided job number (the
final map's entry for its wr) is the written value. -/
theorem fold_updates_source (fmt : JobFormatter) (rows : List Row) :
    ∀ (ks : List String) (acc : AllocResult),
    (∀ u ∈ acc.updates, ∃ r, r ∈ rows ∧ r.sheet_id = u.sheet_id ∧ r.row_id = u.row_id ∧
        lookupS acc.state r.wr_num = some u.value) →
    ∀ u ∈ ((ks.foldl (processWr fmt rows) acc)).updates,
      ∃ r, r ∈ rows ∧ r.sheet_id = u.sheet_id ∧ r.row_id = u.row_id ∧
        lookupS ((ks.foldl (processWr fmt rows) acc)).state r.wr_num = some u.value := by
  intro ks
  induction ks with
  | nil => intro acc h; simpa using h
  | cons k ks ih =>
    intro acc h
    exact ih (processWr fmt rows acc k) (processWr_updates_source fmt rows acc k h)

/-- The coverage invariant: every collected row whose wr is among the
processed keys ends up either queued for update with the decided job
number, or already holding exactly that (non-excluded) number. -/
theorem fold_serves (fmt : JobFormatter) (rows : List Row) :
    ∀ (ks : List String) (acc : AllocResult) (r : Row), r ∈ rows → r.wr_num ∈ ks →
    ∃ j, lookupS ((ks.foldl (processWr fmt rows) acc)).state r.wr_num = some j ∧
      (mk_update r j ∈ ((ks.foldl (processWr fmt rows) acc)).updates ∨
        (r.job_num = some j ∧ should_exclude_value r.job_num = false)) := by
  intro ks
  induction ks with
  | nil => intro acc r _ h; cases h
  | cons k ks ih =>
    intro acc r hr hk
    by_cases hmem : r.wr_num ∈ ks
    · exact ih _ r hr hmem
    · have hkk : r.wr_num = k := (List.mem_cons.mp hk).resolve_right hmem
      subst hkk
      have hre : r ∈ entries_for rows r.wr_num := mem_entries_for.mpr ⟨hr, rfl⟩
      obtain ⟨jn, hlook, hupd⟩ := processWr_resolves fmt rows acc hre
      refine ⟨jn, fold_state_lookup fmt rows ks _ hlook, ?_⟩
      rcases @row_updates_cover (entries_for rows r.wr_num) jn r hre with hm | hm
      · left
        apply fold_updates_mono fmt rows ks
        rw [hupd]
        exact List.mem_append.mpr (Or.inr hm)
      · exact Or.inr hm

theorem dedup_fold_mem :
    ∀ (l acc : List String) (x : String), x ∈ acc ∨ x ∈ l →
    x ∈ l.foldl (fun acc x => if x ∈ acc then acc else acc ++ [x]) acc := by
  intro l
  induction l with
  | nil => intro acc x h; simpa using h.resolve_right (by simp)
  | cons y l ih =>
    intro acc x h
    rw [List.foldl_cons]
    rcases h with h | h
    · refine ih _ x (Or.inl ?_)
      by_cases hy : y ∈ acc <;> simp [hy, h]
    · rcases List.mem_cons.mp h with rfl | hl
      · refine ih _ x (Or.inl ?_)
        by_cases hy : x ∈ acc <;> simp [hy]
      · exact ih _ x (Or.inr hl)

theorem dedup_fold_subset :
    ∀ (l acc : List String) (x : String),
    x ∈ l.foldl (fun acc x => if x ∈ acc then acc else acc ++ [x]) acc → x ∈ acc ∨ x ∈ l := by
  intro l
  induction l with
  | nil => intro acc x h; exact Or.inl (by simpa using h)
  | cons y l ih =>
    intro acc x h
    rw [List.foldl_cons] at h
    rcases ih _ x h with h | h
    · by_cases hy : y ∈ acc
      · rw [if_pos hy] at h; exact Or.inl h
      · rw [if_neg hy] at h
        rcases List.mem_append.mp h with h | h
        · exact Or.inl h
        · rcases List.mem_singleton.mp h with rfl
          exact Or.inr (by simp)
    · exact Or.inr (List.mem_cons_of_mem y h)

theorem mem_dedupFirst {l : List String} {x : String} (h : x ∈ l) : x ∈ dedupFirst l :=
  dedup_fold_mem l [] x (Or.inr h)

theorem mem_of_mem_dedupFirst {l : List String} {x : String} (h : x ∈ dedupFirst l) : x ∈ l :=
  (dedup_fold_subset l [] x h).resolve_left (by simp)

/-! ### C1 — one job number per wr_num -/

/-- C1.  In one run of the allocation phase the job number of every
collected row is decided once per unique `wr_num` — it is the final
map's entry for that wr — and applied to every row of that wr: (a)
every collected row resolves to the final map's entry for its `wr_num`
and either an update carrying exactly that value is queued for it or
its cell already holds that (non-excluded) value; (b) every queued
update writes the final map's entry for the wr of its source row.  Rows
sharing a `wr_num` — in the same or different sheets — therefore
receive the identical job number. -/
theorem c1_unique_job_number_per_wr (state0 : List (String × String)) (rows : List Row) :
    (∀ r ∈ rows, ∃ j, lookupS (run_allocation_phase state0 rows).state r.wr_num = some j ∧
        (mk_update r j ∈ (run_allocation_phase state0 rows).updates ∨
          (r.job_num = some j ∧ should_exclude_value r.job_num = false))) ∧
    (∀ u ∈ (run_allocation_phase state0 rows).updates,
      ∃ r, r ∈ rows ∧ r.sheet_id = u.sheet_id ∧ r.row_id = u.row_id ∧
        lookupS (run_allocation_phase state0 rows).state r.wr_num = some u.value) := by
  constructor
  · intro r hr
    exact fold_serves _ rows _ _ r hr (mem_dedupFirst (List.mem_map_of_mem _ hr))
  · intro u hu
    exact fold_updates_source _ rows _ _ (by intro u hu; cases hu) u hu

/-- Witness for C1 at the two-sheet duplicated-wr input. -/
theorem c1_unique_job_number_per_wr_witness :
    ∃ j, lookupS (run_allocation_phase []
        [⟨1, 10, "101", "WR-1", none⟩, ⟨2, 20, "101", "WR-1", none⟩]).state "WR-1" = some j ∧
      (mk_update ⟨1, 10, "101", "WR-1", none⟩ j ∈ (run_allocation_phase []
          [⟨1, 10, "101", "WR-1", none⟩, ⟨2, 20, "101", "WR-1", none⟩]).updates ∨
        ((⟨1, 10, "101", "WR-1", none⟩ : Row).job_num = some j ∧
          should_exclude_value (⟨1, 10, "101", "WR-1", none⟩ : Row).job_num = false)) :=
  (c1_unique_job_number_per_wr []
    [⟨1, 10, "101", "WR-1", none⟩, ⟨2, 20, "101", "WR-1", none⟩]).1
    ⟨1, 10, "101", "WR-1", none⟩ (by decide)

/-! ### C2 — idempotence of a re-run -/

/-- The claim of C2 is refuted at this input: the single row's wr is in
the state and its cell equals the stored job number, yet the stored
number is itself an excluded placeholder, so `needs_update` fires and
one update (rewriting the same text) is emitted. -/
theorem c2_idempotence_counterexample :
    lookupS [("WR-1", "No Match - 004")] "WR-1" = some "No Match - 004" ∧
    (∀ r ∈ ([⟨1, 10, "101", "WR-1", some "No Match - 004"⟩] : List Row),
      lookupS [("WR-1", "No Match - 004")] r.wr_num = some "No Match - 004" ∧
        r.job_num = some "No Match - 004") ∧
    (run_allocation_phase [("WR-1", "No Match - 004")]
        [⟨1, 10, "101", "WR-1", some "No Match - 004"⟩]).updates ≠ [] := by
  decide

theorem processWr_fixed (fmt : JobFormatter) (rows : List Row) (acc : AllocResult) (k : String)
    (h : ∃ j, lookupS acc.state k = some j ∧
      ∀ r ∈ entries_for rows k, r.job_num = some j ∧ should_exclude_value r.job_num = false) :
    processWr fmt rows acc k = acc := by
  obtain ⟨j, hl, hrow⟩ := h
  have hnil : row_updates (entries_for rows k) j = [] := by
    refine List.filterMap_eq_nil_iff.mpr fun e he => ?_
    have he2 := hrow e he
    have hex : should_exclude_value (some j) = false := he2.1 ▸ he2.2
    have hnu : needs_update e.job_num j = false := by
      unfold needs_update
      simp [he2.1, hex]
    simp [hnu]
  unfold processWr
  rw [hl]
  dsimp only
  rw [hnil, List.append_nil]

theorem fold_fixed (fmt : JobFormatter) (rows : List Row) :
    ∀ (ks : List String) (acc : AllocResult),
    (∀ k ∈ ks, ∃ j, lookupS acc.state k = some j ∧
      ∀ r ∈ entries_for rows k, r.job_num = some j ∧ should_exclude_value r.job_num = false) →
    ks.foldl (processWr fmt rows) acc = acc := by
  intro ks
  induction ks with
  | nil => intro acc _; rfl
  | cons k ks ih =>
    intro acc h
    have hstep : processWr fmt rows acc k = acc :=
      processWr_fixed fmt rows acc k (h k (List.mem_cons_self k ks))
    rw [List.foldl_cons, hstep]
    exact ih acc fun k2 hk2 => h k2 (List.mem_cons_of_mem k hk2)

/-- C2, amended.  If every collected row's `wr_num` is in the persisted
state, its cell equals the stored number, and — in addition to the
original claim — no such stored number is itself an excluded
placeholder value, then the run emits zero row updates.  (The extra
condition is forced by the counterexample: `needs_update` deliberately
fires on cells holding excluded values even when they match the state.) -/
theorem c2_idempotence_amended (state0 : List (String × String)) (rows : List Row)
    (h : ∀ r ∈ rows, ∃ j, lookupS state0 r.wr_num = some j ∧ r.job_num = some j ∧
        should_exclude_value r.job_num = false) :
    (run_allocation_phase state0 rows).updates = [] := by
  unfold run_allocation_phase runAllocation
  rw [fold_fixed _ rows _ _ ?_]
  · intro k hk
    obtain ⟨r0, hr0, hwr⟩ := List.mem_map.mp (mem_of_mem_dedupFirst hk)
    subst hwr
    obtain ⟨j, hj, hjob, hex⟩ := h r0 hr0
    refine ⟨j, hj, fun r hre => ?_⟩
    obtain ⟨hr, hwr2⟩ := mem_entries_for.mp hre
    obtain ⟨j2, hj2, hjob2, hex2⟩ := h r hr
    have hj2eq : j2 = j := by
      rw [hwr2] at hj2
      exact Option.some.inj (hj2.symm.trans hj)
    exact ⟨hj2eq ▸ hjob2, hex2⟩

/-- Witness for the amended C2: a clean second run emits nothing. -/
theorem c2_idempotence_amended_witness :
    (run_allocation_phase [("WR-3", "101-003")]
      [⟨1, 12, "101", "WR-3", some "101-003"⟩]).updates = [] :=
  c2_idempotence_amended _ _ (by
    intro r hr
    simp only [List.mem_singleton] at hr
    subst hr
    exact ⟨"101-003", by decide, by decide, by decide⟩)

/-! ### C4 — stability of persisted assignments -/

/-- C4.  Every entry of the loaded state survives the run unchanged:
for a `wr_num` present in the persisted state the stored job number is
reused, the map handed to `save_state` at run end contains exactly the
loaded entry, and no entry is ever removed. -/
theorem c4_stability_of_assignments (state0 : List (String × String)) (rows : List Row)
    {w jn : String} (h : lookupS state0 w = some jn) :
    lookupS (run_allocation_phase state0 rows).state w = some jn := by
  unfold run_allocation_phase runAllocation
  exact fold_state_lookup _ rows _ _ h

/-- Witness for C4: a persisted entry is intact after a run that
assigns a new number to a different wr. -/
theorem c4_stability_of_assignments_witness :
    lookupS (run_allocation_phase [("WR-1", "101-001")]
      [⟨1, 11, "101", "WR-2", none⟩]).state "WR-1" = some "101-001" :=
  c4_stability_of_assignments [("WR-1", "101-001")] [⟨1, 11, "101", "WR-2", none⟩] (by decide)

/-! ### C9 — determinism of the allocation phase -/

/-- C9.  The allocation phase (format detection, counter rehydration,
assignment, update computation) is a pure function of the loaded state
and the collected row sequence: two executions on the same inputs
produce the identical `wr_num → job_number` map and the identical
update list.  The embedding required no clock, randomness or other
hidden input, which is exactly the content of the claim. -/
theorem c9_allocation_deterministic (st1 st2 : List (String × String))
    (rows1 rows2 : List Row) (hst : st1 = st2) (hrows : rows1 = rows2) :
    (run_allocation_phase st1 rows1).state = (run_allocation_phase st2 rows2).state ∧
    (run_allocation_phase st1 rows1).updates = (run_allocation_phase st2 rows2).updates := by
  subst hst; subst hrows; exact ⟨rfl, rfl⟩

/-- Witness for C9 at a concrete input. -/
theorem c9_allocation_deterministic_witness :
    (run_allocation_phase [] [⟨1, 10, "101", "WR-1", none⟩]).state =
      (run_allocation_phase [] [⟨1, 10, "101", "WR-1", none⟩]).state ∧
    (run_allocation_phase [] [⟨1, 10, "101", "WR-1", none⟩]).updates =
      (run_allocation_phase [] [⟨1, 10, "101", "WR-1", none⟩]).updates :=
  c9_allocation_deterministic [] [] [⟨1, 10, "101", "WR-1", none⟩]
    [⟨1, 10, "101", "WR-1", none⟩] rfl rfl

/-! ### Lemmas about digits, decimal rendering and dash-splitting -/

theorem digitChar_isDigit (d : Nat) : (digitChar d).isDigit = true := by
  unfold digitChar
  split <;> decide

theorem digitChar_toNat (d : Nat) (h : d < 10) : (digitChar d).toNat - 48 = d := by
  interval_cases d <;> decide

theorem natDigitsAux_all_digit (fuel n : Nat) :
    ∀ c ∈ natDigitsAux fuel n, c.isDigit = true := by
  induction fuel generalizing n with
  | zero => intro c hc; cases hc
  | succ fuel ih =>
    intro c hc
    unfold natDigitsAux at hc
    by_cases hn : n < 10
    · rw [if_pos hn] at hc
      rcases List.mem_singleton.mp hc with rfl
      exact digitChar_isDigit n
    · rw [if_neg hn] at hc
      rcases List.mem_append.mp hc with hc | hc
      · exact ih _ c hc
      · rcases List.mem_singleton.mp hc with rfl
        exact digitChar_isDigit (n % 10)

theorem natDigitsAux_ne_nil (fuel n : Nat) (h : 0 < fuel) : natDigitsAux fuel n ≠ [] := by
  cases fuel with
  | zero => omega
  | succ fuel =>
    unfold natDigitsAux
    by_cases hn : n < 10 <;> simp [hn]

theorem listToNat_append_digit (l : List Char) (c : Char) :
    listToNat (l ++ [c]) = listToNat l * 10 + (c.toNat - 48) := by
  unfold listToNat
  rw [List.foldl_append]
  rfl

theorem natDigitsAux_toNat (fuel n : Nat) (h : n < fuel) :
    listToNat (natDigitsAux fuel n) = n := by
  induction fuel generalizing n with
  | zero => omega
  | succ fuel ih =>
    unfold natDigitsAux
    by_cases hn : n < 10
    · rw [if_pos hn]
      show 0 * 10 + ((digitChar n).toNat - 48) = n
      rw [digitChar_toNat n hn]
      omega
    · rw [if_neg hn]
      rw [listToNat_append_digit, ih (n / 10) (by omega), digitChar_toNat (n % 10) (by omega)]
      omega

theorem listToNat_natDigits (n : Nat) : listToNat (natDigits n) = n :=
  natDigitsAux_toNat (n + 1) n (by omega)

theorem listToNat_replicate_zero (k : Nat) (l : List Char) :
    listToNat (List.replicate k '0' ++ l) = listToNat l := by
  induction k with
  | zero => rfl
  | succ k ih =>
    rw [List.replicate_succ, List.cons_append]
    show listToNat (List.replicate k '0' ++ l) = listToNat l
    exact ih

theorem pad3_all_digit (n : Nat) : ∀ c ∈ pad3 n, c.isDigit = true := by
  intro c hc
  unfold pad3 at hc
  by_cases hlen : (natDigits n).length ≥ 3
  · rw [if_pos hlen] at hc
    exact natDigitsAux_all_digit _ _ c hc
  · rw [if_neg hlen] at hc
    rcases List.mem_append.mp hc with hc | hc
    · rcases List.eq_of_mem_replicate hc with rfl
      decide
    · exact natDigitsAux_all_digit _ _ c hc

theorem pad3_ne_nil (n : Nat) : pad3 n ≠ [] := by
  unfold pad3
  by_cases hlen : (natDigits n).length ≥ 3
  · rw [if_pos hlen]
    exact natDigitsAux_ne_nil _ _ (by omega)
  · rw [if_neg hlen]
    intro h
    exact natDigitsAux_ne_nil (n + 1) n (by omega) (List.append_eq_nil.mp h).2

theorem listToNat_pad3 (n : Nat) : listToNat (pad3 n) = n := by
  unfold pad3
  by_cases hlen : (natDigits n).length ≥ 3
  · rw [if_pos hlen]; exact listToNat_natDigits n
  · rw [if_neg hlen, listToNat_replicate_zero, listToNat_natDigits]

theorem pyIsDigitL_of (l : List Char) (h1 : l ≠ []) (h2 : ∀ c ∈ l, c.isDigit = true) :
    pyIsDigitL l = true := by
  unfold pyIsDigitL
  rw [Bool.and_eq_true, List.all_eq_true]
  exact ⟨by simpa using h1, h2⟩

theorem digit_ne_dash {c : Char} (h : c.isDigit = true) : c ≠ '-' := by
  rintro rfl
  simp at h

theorem splitDash_no_dash (l : List Char) (h : ∀ c ∈ l, c ≠ '-') : splitDash l = [l] := by
  induction l with
  | nil => rfl
  | cons c rest ih =>
    unfold splitDash
    rw [if_neg (h c (by simp))]
    rw [ih fun c2 hc2 => h c2 (List.mem_cons_of_mem c hc2)]

theorem splitDash_append (xs b : List Char) (h : ∀ c ∈ b, c ≠ '-') :
    ∃ init, splitDash (xs ++ '-' :: b) = init ++ [b] ∧ init ≠ [] := by
  induction xs with
  | nil =>
    refine ⟨[[]], ?_, by simp⟩
    show splitDash ('-' :: b) = [[]] ++ [b]
    unfold splitDash
    rw [if_pos rfl, splitDash_no_dash b h]
    rfl
  | cons x xs ih =>
    obtain ⟨init, hsplit, hne⟩ := ih
    by_cases hx : x = '-'
    · subst hx
      refine ⟨[] :: init, ?_, by simp⟩
      show splitDash ('-' :: (xs ++ '-' :: b)) = ([] :: init) ++ [b]
      unfold splitDash
      rw [if_pos rfl, hsplit]
      rfl
    · cases init with
      | nil => exact absurd rfl hne
      | cons i0 irest =>
        refine ⟨(x :: i0) :: irest, ?_, by simp⟩
        show splitDash (x :: (xs ++ '-' :: b)) = ((x :: i0) :: irest) ++ [b]
        unfold splitDash
        rw [if_neg hx, hsplit]
        rfl

/-- Every formatter stamps the running counter as the numeric suffix of
the job number it produces. -/
theorem suffix_applyFormatter (fmt : JobFormatter) (d : String) (c : Nat) :
    numeric_suffix (applyFormatter fmt d c) = some c := by
  have hpadnd : ∀ ch ∈ pad3 c, ch ≠ '-' := fun ch hch => digit_ne_dash (pad3_all_digit c ch hch)
  have hpadd : pyIsDigitL (pad3 c) = true := pyIsDigitL_of _ (pad3_ne_nil c) (pad3_all_digit c)
  have hnatnd : ∀ ch ∈ natDigits c, ch ≠ '-' :=
    fun ch hch => digit_ne_dash (natDigitsAux_all_digit _ _ ch hch)
  have hnatd : pyIsDigitL (natDigits c) = true :=
    pyIsDigitL_of _ (natDigitsAux_ne_nil _ _ (by omega)) (natDigitsAux_all_digit _ _)
  cases fmt with
  | deptPad3 =>
    obtain ⟨init, hsplit, -⟩ := splitDash_append d.toList (pad3 c) hpadnd
    unfold numeric_suffix applyFormatter
    rw [show (⟨d.toList ++ '-' :: pad3 c⟩ : String).toList = d.toList ++ '-' :: pad3 c from rfl]
    rw [hsplit, List.getLast?_concat]
    simp [hpadd, listToNat_pad3]
  | prefixDeptPad3 pre =>
    obtain ⟨init, hsplit, -⟩ :=
      splitDash_append (pre.toList ++ '-' :: d.toList) (pad3 c) hpadnd
    unfold numeric_suffix applyFormatter
    rw [show (⟨pre.toList ++ '-' :: d.toList ++ '-' :: pad3 c⟩ : String).toList =
      (pre.toList ++ '-' :: d.toList) ++ '-' :: pad3 c by simp]
    rw [hsplit, List.getLast?_concat]
    simp [hpadd, listToNat_pad3]
  | numericPad3 =>
    unfold numeric_suffix applyFormatter
    rw [show (⟨pad3 c⟩ : String).toList = pad3 c from rfl]
    rw [splitDash_no_dash _ hpadnd]
    simp [hpadd, listToNat_pad3]
  | deptPlain =>
    obtain ⟨init, hsplit, -⟩ := splitDash_append d.toList (natDigits c) hnatnd
    unfold numeric_suffix applyFormatter
    rw [show (⟨d.toList ++ '-' :: natDigits c⟩ : String).toList =
      d.toList ++ '-' :: natDigits c from rfl]
    rw [hsplit, List.getLast?_concat]
    simp [hnatd, listToNat_natDigits]

/-! ### Lemmas about counter rehydration -/

theorem bump_counter_mono (cs : String → Nat) (kv : String × String) (d : String) :
    cs d ≤ bump_counter cs kv d := by
  unfold bump_counter
  cases parse_job_credit kv.2 with
  | none => simp
  | some dn =>
    by_cases hd : d = dn.1 <;> simp [hd]

theorem rehydrate_fold_mono (l : List (String × String)) (cs : String → Nat) (d : String) :
    cs d ≤ (l.foldl bump_counter cs) d := by
  induction l generalizing cs with
  | nil => simp
  | cons kv rest ih => exact le_trans (bump_counter_mono cs kv d) (ih _)

theorem credit_le_rehydrate_fold (w jn d : String) (n : Nat)
    (hcred : parse_job_credit jn = some (d, n)) :
    ∀ (st : List (String × String)) (cs : String → Nat), (w, jn) ∈ st →
    n ≤ (st.foldl bump_counter cs) d := by
  intro st
  induction st with
  | nil => intro cs hmem; cases hmem
  | cons kv rest ih =>
    intro cs hmem
    rcases List.mem_cons.mp hmem with heq | hmem2
    · obtain ⟨kw, kj⟩ := kv
      injection heq with h1 h2
      subst h1
      subst h2
      rw [List.foldl_cons]
      refine le_trans ?_ (rehydrate_fold_mono rest _ d)
      unfold bump_counter
      rw [hcred]
      simp
    · rw [List.foldl_cons]
      exact ih _ hmem2

/-- (C3a core) the rehydrated counter dominates every credited suffix. -/
theorem credit_le_rehydrate {st : List (String × String)} {w jn d : String} {n : Nat}
    (hmem : (w, jn) ∈ st) (hcred : parse_job_credit jn = some (d, n)) :
    n ≤ rehydrate_counters st d :=
  credit_le_rehydrate_fold w jn d n hcred st _ hmem

theorem rehydrate_append_mono (st ext : List (String × String)) (d : String) :
    rehydrate_counters st d ≤ rehydrate_counters (st ++ ext) d := by
  unfold rehydrate_counters
  rw [List.foldl_append]
  exact rehydrate_fold_mono ext _ d

/-- A wr absent from the accumulator's map that is resolved by the end
of the fold was assigned during the fold: its number is a formatter
output whose counter strictly exceeds the accumulator's counter for the
first entry's department. -/
theorem fold_new_assignment (fmt : JobFormatter) (rows : List Row) :
    ∀ (ks : List String) (acc : AllocResult) {w jn : String},
    lookupS acc.state w = none →
    lookupS ((ks.foldl (processWr fmt rows) acc)).state w = some jn →
    ∃ d c, jn = applyFormatter fmt d c ∧ acc.counters d < c := by
  intro ks
  induction ks with
  | nil =>
    intro acc w jn h1 h2
    rw [List.foldl_nil] at h2
    rw [h1] at h2
    cases h2
  | cons k ks ih =>
    intro acc w jn h1 h2
    rw [List.foldl_cons] at h2
    cases hl : lookupS (processWr fmt rows acc k).state w with
    | none =>
      obtain ⟨d, c, hfmt, hlt⟩ := ih _ hl h2
      exact ⟨d, c, hfmt, lt_of_le_of_lt (processWr_counters_mono fmt rows acc k d) hlt⟩
    | some jn2 =>
      have hfin := fold_state_lookup fmt rows ks _ hl
      have hjeq : jn = jn2 := Option.some.inj (h2.symm.trans hfin)
      subst hjeq
      clear h2 hfin
      unfold processWr at hl
      cases hlk : lookupS acc.state k with
      | some j0 =>
        rw [hlk] at hl
        dsimp only at hl
        rw [h1] at hl
        cases hl
      | none =>
        rw [hlk] at hl
        cases hent : entries_for rows k with
        | nil =>
          rw [hent] at hl
          dsimp only at hl
          rw [h1] at hl
          cases hl
        | cons e es =>
          rw [hent] at hl
          dsimp only at hl
          rw [lookupS_append, h1] at hl
          have hl2 : lookupS [(k, applyFormatter fmt e.dept (acc.counters e.dept + 1))] w =
              some jn := hl
          rw [lookupS_singleton] at hl2
          by_cases hkw : k = w
          · rw [if_pos hkw] at hl2
            exact ⟨e.dept, acc.counters e.dept + 1, (Option.some.inj hl2).symm, by omega⟩
          · rw [if_neg hkw] at hl2
            cases hl2

/-! ### C3 — counter monotonicity across runs -/

/-- C3.  (a) At run start `dept_counters[dept]` is rehydrated to at
least every numeric suffix the rehydration loop can parse out of the
persisted state for that department; (b) every job number newly
assigned during the run is a formatter output whose counter — which is
stamped as the number's integer suffix — strictly exceeds the
rehydrated counter of its department, and hence every previously
persisted parsed suffix for that department; (c) rehydrating from the
state saved at run end yields counters at least as large as those
rehydrated at run start (the saved map extends the loaded one), so
`dept_counters[dept]` never decreases across runs; (d) within a run
the live counters never drop below their rehydrated values. -/
theorem c3_counter_monotonicity (state0 : List (String × String)) (rows : List Row) :
    (∀ w jn d n, (w, jn) ∈ state0 → parse_job_credit jn = some (d, n) →
      n ≤ rehydrate_counters state0 d) ∧
    (∀ w jn, lookupS state0 w = none →
      lookupS (run_allocation_phase state0 rows).state w = some jn →
      ∃ d c, jn = applyFormatter (analyze_existing_job_number_format rows) d c ∧
        numeric_suffix jn = some c ∧ rehydrate_counters state0 d < c ∧
        ∀ w2 jn2 n2, (w2, jn2) ∈ state0 → parse_job_credit jn2 = some (d, n2) → n2 < c) ∧
    (∀ d, rehydrate_counters state0 d ≤
      rehydrate_counters (run_allocation_phase state0 rows).state d) ∧
    (∀ d, rehydrate_counters state0 d ≤ (run_allocation_phase state0 rows).counters d) := by
  refine ⟨fun w jn d n hmem hcred => credit_le_rehydrate hmem hcred, ?_, ?_, ?_⟩
  · intro w jn h1 h2
    obtain ⟨d, c, hfmt, hlt⟩ := fold_new_assignment _ rows _ _ h1 h2
    refine ⟨d, c, hfmt, by rw [hfmt]; exact suffix_applyFormatter _ d c, hlt, ?_⟩
    intro w2 jn2 n2 hmem2 hcred2
    exact lt_of_le_of_lt (credit_le_rehydrate hmem2 hcred2) hlt
  · intro d
    obtain ⟨ext, hext⟩ := fold_state_ext (analyze_existing_job_number_format rows) rows
      (dedupFirst (rows.map (·.wr_num))) ⟨state0, rehydrate_counters state0, []⟩
    unfold run_allocation_phase runAllocation
    rw [hext]
    exact rehydrate_append_mono state0 ext d
  · intro d
    unfold run_allocation_phase runAllocation
    exact fold_counters_mono _ rows _ ⟨state0, rehydrate_counters state0, []⟩ d

/-- Witness for C3: with `"101-007"` persisted, the fresh wr gets
`"101-008"`, whose suffix 8 beats the persisted suffix 7. -/
theorem c3_counter_monotonicity_witness :
    ∃ d c, ("101-008" : String) =
        applyFormatter (analyze_existing_job_number_format
          [⟨1, 13, "101", "WR-8", none⟩]) d c ∧
      numeric_suffix "101-008" = some c ∧
      rehydrate_counters [("WR-0", "101-007")] d < c ∧
      ∀ w2 jn2 n2, (w2, jn2) ∈ [("WR-0", "101-007")] →
        parse_job_credit jn2 = some (d, n2) → n2 < c :=
  (c3_counter_monotonicity [("WR-0", "101-007")] [⟨1, 13, "101", "WR-8", none⟩]).2.1
    "WR-8" "101-008" (by decide) (by decide)

/-! ### C10 — totality and credit shape of counter rehydration -/

/-- C10.  Counter rehydration is a total function of the persisted
string map (the embedding is total by construction; in the source the
dead `elif` and the `except` clause can never divert the flow on
digit-checked input): a persisted job number with no `'-'` contributes
to no counter, one whose final `'-'`-separated segment is not all
digits contributes to no counter, skipped numbers leave the counters
untouched, and for `"ABC-101-007"` the department credited with 7 is
the second-to-last segment `"101"` — the joined prefix `"ABC-101"`
stays at 0. -/
theorem c10_rehydration_total_and_credit :
    (∀ jn : String, jn.toList.contains '-' = false → parse_job_credit jn = none) ∧
    (∀ (jn : String) (seg : List Char), (splitDash jn.toList).getLast? = some seg →
      pyIsDigitL seg = false → parse_job_credit jn = none) ∧
    (∀ (st : List (String × String)) (w jn d : String), parse_job_credit jn = none →
      rehydrate_counters (st ++ [(w, jn)]) d = rehydrate_counters st d) ∧
    (parse_job_credit "ABC-101-007" = some ("101", 7) ∧
      rehydrate_counters [("w", "ABC-101-007")] "101" = 7 ∧
      rehydrate_counters [("w", "ABC-101-007")] "ABC-101" = 0) := by
  refine ⟨?_, ?_, ?_, by decide⟩
  · intro jn h
    unfold parse_job_credit
    rw [h]
    rfl
  · intro jn seg hlast hdig
    unfold parse_job_credit
    by_cases hdash : jn.toList.contains '-'
    · rw [if_pos hdash]
      cases hrev : (splitDash jn.toList).reverse with
      | nil => rfl
      | cons lastSeg rest =>
        have hhead : (splitDash jn.toList).getLast? = some lastSeg := by
          rw [← List.head?_reverse, hrev]
          rfl
        have hseg : seg = lastSeg := Option.some.inj (hlast.symm.trans hhead)
        subst hseg
        cases rest with
        | nil => rfl
        | cons deptSeg rest2 =>
          dsimp only
          rw [if_neg (by simp [hdig])]
    · rw [if_neg hdash]
  · intro st w jn d hnone
    unfold rehydrate_counters
    rw [List.foldl_append]
    show bump_counter (st.foldl bump_counter fun _ => 0) (w, jn) d = _
    unfold bump_counter
    rw [hnone]

/-- Witness for C10: a dash-less job number is skipped. -/
theorem c10_rehydration_total_and_credit_witness :
    parse_job_credit "007" = none ∧
    rehydrate_counters [("WR-0", "101-005"), ("WR-1", "007")] "101" =
      rehydrate_counters [("WR-0", "101-005")] "101" :=
  ⟨c10_rehydration_total_and_credit.1 "007" (by decide),
    c10_rehydration_total_and_credit.2.2.1 [("WR-0", "101-005")] "WR-1" "007" "101"
      (c10_rehydration_total_and_credit.1 "007" (by decide))⟩

/-! ### C5 — load_state on an absent state sheet -/

/-- C5 (code bug).  When the collaborator reports the state sheet as
absent, `load_state` raises instead of returning the empty state: the
first call it makes is `get_state_sheet_columns`, which catches the
`ApiError` 1006 and re-raises it as a generic `Exception`, so
`load_state`'s own `error_code == 1006 → return {}` handler — clear
evidence of the intended empty-state behaviour — is unreachable. -/
theorem c5_load_state_sheet_absent_raises : load_state none = LoadResult.raised := rfl

/-! ### C6 — the default-format scenario -/

/-- C6.  Empty persisted state, no job numbers anywhere: the analyzer
returns the default `DEPT-###` formatter, the row
`{dept: "101", wr_num: "WR-1"}` is assigned exactly `"101-001"`
(counter 0 → 1, zero-padded to three digits), and the second collected
row with the same wr in a different sheet receives the identical
`"101-001"`. -/
theorem c6_default_format_scenario :
    analyze_existing_job_number_format
        [⟨1, 10, "101", "WR-1", none⟩, ⟨2, 20, "101", "WR-1", none⟩] =
      JobFormatter.deptPad3 ∧
    applyFormatter JobFormatter.deptPad3 "101" 1 = "101-001" ∧
    lookupS (run_allocation_phase []
        [⟨1, 10, "101", "WR-1", none⟩, ⟨2, 20, "101", "WR-1", none⟩]).state "WR-1" =
      some "101-001" ∧
    (run_allocation_phase []
        [⟨1, 10, "101", "WR-1", none⟩, ⟨2, 20, "101", "WR-1", none⟩]).updates =
      [⟨1, 10, "101-001"⟩, ⟨2, 20, "101-001"⟩] := by
  decide

/-! ### C7 — excluded rows are never processed -/

theorem collect_row_ids {r : RawRow} {row : Row} (h : collect_row r = some row) :
    row.sheet_id = r.sheet_id ∧ row.row_id = r.row_id := by
  unfold collect_row at h
  cases hd : norm_display r.dept with
  | none => rw [hd] at h; exact Option.noConfusion h
  | some d =>
    cases hw : norm_display r.wr_num with
    | none => rw [hd, hw] at h; exact Option.noConfusion h
    | some w =>
      rw [hd, hw] at h
      dsimp only at h
      by_cases hex : !should_exclude_value (some d) && !should_exclude_value (some w)
      · rw [if_pos hex] at h
        injection h with h2
        rw [← h2]
        exact ⟨rfl, rfl⟩
      · rw [if_neg hex] at h
        exact Option.noConfusion h

/-- C7.  A row whose `dept` or `wr_num` is empty (or whose cell is
missing) or contains an exclusion pattern is dropped by the collector;
consequently it never supplies a department, never causes an
assignment (the allocation phase only sees collected rows), and — as
long as no other raw row carries its (sheet, row) identity — no queued
update ever targets it. -/
theorem c7_excluded_rows_never_processed (r : RawRow) (raws : List RawRow)
    (state0 : List (String × String))
    (hexc : norm_display r.dept = none ∨ norm_display r.wr_num = none ∨
      should_exclude_value (norm_display r.dept) = true ∨
      should_exclude_value (norm_display r.wr_num) = true) :
    collect_row r = none ∧
    ((∀ r2 ∈ raws, r2.sheet_id = r.sheet_id ∧ r2.row_id = r.row_id → collect_row r2 = none) →
      ∀ u ∈ (run_allocation_phase state0 (collect_rows raws)).updates,
        ¬(u.sheet_id = r.sheet_id ∧ u.row_id = r.row_id)) := by
  constructor
  · unfold collect_row
    cases hd : norm_display r.dept with
    | none => rfl
    | some d =>
      cases hw : norm_display r.wr_num with
      | none => rfl
      | some w =>
        dsimp only
        rw [hd, hw] at hexc
        rcases hexc with h | h | h | h
        · exact Option.noConfusion h
        · exact Option.noConfusion h
        · rw [if_neg (by simp [h])]
        · rw [if_neg (by simp [h])]
  · intro hall u hu hids
    obtain ⟨row, hrow, hs, hrid, -⟩ :=
      fold_updates_source _ (collect_rows raws) _ _ (by intro u2 hu2; cases hu2) u hu
    obtain ⟨r2, hr2, hcr⟩ := List.mem_filterMap.mp hrow
    obtain ⟨hrs, hrr⟩ := collect_row_ids hcr
    have hsame : r2.sheet_id = r.sheet_id ∧ r2.row_id = r.row_id :=
      ⟨(hrs.symm.trans hs).trans hids.1, (hrr.symm.trans hrid).trans hids.2⟩
    rw [hall r2 hr2 hsame] at hcr
    exact Option.noConfusion hcr

/-- Witness for C7 at the spec's example value `"No Match - 004"`. -/
theorem c7_excluded_rows_never_processed_witness :
    collect_row ⟨3, 30, some "No Match - 004", some "WR-7", none⟩ = none ∧
    (∀ u ∈ (run_allocation_phase []
        (collect_rows [⟨3, 30, some "No Match - 004", some "WR-7", none⟩])).updates,
      ¬(u.sheet_id = 3 ∧ u.row_id = 30)) :=
  ⟨(c7_excluded_rows_never_processed ⟨3, 30, some "No Match - 004", some "WR-7", none⟩
      [⟨3, 30, some "No Match - 004", some "WR-7", none⟩] []
      (Or.inr (Or.inr (Or.inl (by decide))))).1,
    (c7_excluded_rows_never_processed ⟨3, 30, some "No Match - 004", some "WR-7", none⟩
      [⟨3, 30, some "No Match - 004", some "WR-7", none⟩] []
      (Or.inr (Or.inr (Or.inl (by decide))))).2 (by
        intro r2 hr2 _
        simp only [List.mem_singleton] at hr2
        subst hr2
        decide)⟩


/-! ### The JSON round-trip, part 1: string literals -/

theorem hex_val_hexChar (d : Nat) (h : d < 16) : hex_val (hexChar d) = some d := by
  interval_cases d <;> rfl

theorem char_valid_range (c : Char) :
    c.toNat < 0xD800 ∨ (0xE000 ≤ c.toNat ∧ c.toNat < 0x110000) := c.valid

theorem hex4_cons (n : Nat) (rest : List Char) :
    hex4 n ++ rest = hexChar (n / 4096 % 16) :: hexChar (n / 256 % 16) ::
      hexChar (n / 16 % 16) :: hexChar (n % 16) :: rest := by
  simp [hex4]

theorem read_u_escape_bmp (n : Nat) (rest : List Char) (hlt : n < 0x10000)
    (hno : ¬(0xD800 ≤ n ∧ n < 0xE000)) :
    read_u_escape (hex4 n ++ rest) = StrTok.ch (Char.ofNat n) rest := by
  have e1 : hex_val (hexChar (n / 4096 % 16)) = some (n / 4096 % 16) :=
    hex_val_hexChar _ (by omega)
  have e2 : hex_val (hexChar (n / 256 % 16)) = some (n / 256 % 16) :=
    hex_val_hexChar _ (by omega)
  have e3 : hex_val (hexChar (n / 16 % 16)) = some (n / 16 % 16) :=
    hex_val_hexChar _ (by omega)
  have e4 : hex_val (hexChar (n % 16)) = some (n % 16) :=
    hex_val_hexChar _ (by omega)
  rw [hex4_cons]
  unfold read_u_escape
  dsimp only
  rw [e1, e2, e3, e4]
  dsimp only
  have harith : 4096 * (n / 4096 % 16) + 256 * (n / 256 % 16) + 16 * (n / 16 % 16) + n % 16
      = n := by omega
  rw [harith, if_neg (by omega), if_neg (by omega)]

theorem read_low_surrogate_encode (hi m : Nat) (rest : List Char)
    (hm : 0xDC00 ≤ m ∧ m < 0xE000) :
    read_low_surrogate hi ('\\' :: 'u' :: (hex4 m ++ rest)) =
      StrTok.ch (Char.ofNat (0x10000 + (hi - 0xD800) * 0x400 + (m - 0xDC00))) rest := by
  have f1 : hex_val (hexChar (m / 4096 % 16)) = some (m / 4096 % 16) :=
    hex_val_hexChar _ (by omega)
  have f2 : hex_val (hexChar (m / 256 % 16)) = some (m / 256 % 16) :=
    hex_val_hexChar _ (by omega)
  have f3 : hex_val (hexChar (m / 16 % 16)) = some (m / 16 % 16) :=
    hex_val_hexChar _ (by omega)
  have f4 : hex_val (hexChar (m % 16)) = some (m % 16) :=
    hex_val_hexChar _ (by omega)
  rw [hex4_cons]
  unfold read_low_surrogate
  dsimp only
  rw [if_pos ⟨rfl, rfl⟩, f1, f2, f3, f4]
  dsimp only
  have harith : 4096 * (m / 4096 % 16) + 256 * (m / 256 % 16) + 16 * (m / 16 % 16) + m % 16
      = m := by omega
  rw [harith, if_pos hm]

theorem read_u_escape_surrogate (n : Nat) (rest : List Char)
    (hn : 0xD800 ≤ n ∧ n < 0xDC00) :
    read_u_escape (hex4 n ++ rest) = read_low_surrogate n rest := by
  have e1 : hex_val (hexChar (n / 4096 % 16)) = some (n / 4096 % 16) :=
    hex_val_hexChar _ (by omega)
  have e2 : hex_val (hexChar (n / 256 % 16)) = some (n / 256 % 16) :=
    hex_val_hexChar _ (by omega)
  have e3 : hex_val (hexChar (n / 16 % 16)) = some (n / 16 % 16) :=
    hex_val_hexChar _ (by omega)
  have e4 : hex_val (hexChar (n % 16)) = some (n % 16) :=
    hex_val_hexChar _ (by omega)
  rw [hex4_cons]
  unfold read_u_escape
  dsimp only
  rw [e1, e2, e3, e4]
  dsimp only
  have harith : 4096 * (n / 4096 % 16) + 256 * (n / 256 % 16) + 16 * (n / 16 % 16) + n % 16
      = n := by omega
  rw [harith, if_pos hn]

theorem read_u_escape_pair (t : Nat) (rest : List Char)
    (hge : 0x10000 ≤ t) (hlt : t < 0x110000) :
    read_u_escape (hex4 (0xD800 + (t - 0x10000) / 0x400) ++
        ('\\' :: 'u' :: (hex4 (0xDC00 + (t - 0x10000) % 0x400) ++ rest))) =
      StrTok.ch (Char.ofNat t) rest := by
  rw [read_u_escape_surrogate _ _ (by omega)]
  rw [read_low_surrogate_encode _ _ _ (by omega)]
  have hcomb : 0x10000 + (0xD800 + (t - 0x10000) / 0x400 - 0xD800) * 0x400 +
      (0xDC00 + (t - 0x10000) % 0x400 - 0xDC00) = t := by omega
  rw [hcomb]

theorem read_tok_u (n : Nat) (rest : List Char) :
    read_string_tok ('\\' :: 'u' :: (hex4 n ++ rest)) = read_u_escape (hex4 n ++ rest) := rfl

theorem read_tok_plain (c : Char) (rest : List Char) (h1 : c ≠ '"') (h2 : c ≠ '\\')
    (h8 : ¬c.toNat < 0x20) : read_string_tok (c :: rest) = StrTok.ch c rest := by
  unfold read_string_tok
  dsimp only
  rw [if_neg h1, if_neg h2, if_neg h8]

theorem escape_char_ctrl (c : Char) (h : c.toNat < 0x20) (h3 : c ≠ '\n') (h4 : c ≠ '\r')
    (h5 : c ≠ '\t') (h6 : c ≠ '\x08') (h7 : c ≠ '\x0c') :
    escape_char c = '\\' :: 'u' :: hex4 c.toNat := by
  have h1 : c ≠ '"' := by intro heq; rw [heq] at h; exact absurd h (by decide)
  have h2 : c ≠ '\\' := by intro heq; rw [heq] at h; exact absurd h (by decide)
  unfold escape_char
  rw [if_neg h1, if_neg h2, if_neg h3, if_neg h4, if_neg h5, if_neg h6, if_neg h7, if_pos h]

theorem escape_char_print (c : Char) (h8 : ¬c.toNat < 0x20) (h9 : c.toNat < 0x7f)
    (h1 : c ≠ '"') (h2 : c ≠ '\\') : escape_char c = [c] := by
  have h3 : c ≠ '\n' := by intro heq; rw [heq] at h8; exact h8 (by decide)
  have h4 : c ≠ '\r' := by intro heq; rw [heq] at h8; exact h8 (by decide)
  have h5 : c ≠ '\t' := by intro heq; rw [heq] at h8; exact h8 (by decide)
  have h6 : c ≠ '\x08' := by intro heq; rw [heq] at h8; exact h8 (by decide)
  have h7 : c ≠ '\x0c' := by intro heq; rw [heq] at h8; exact h8 (by decide)
  unfold escape_char
  rw [if_neg h1, if_neg h2, if_neg h3, if_neg h4, if_neg h5, if_neg h6, if_neg h7,
    if_neg h8, if_pos h9]

theorem escape_char_bmp (c : Char) (h9 : ¬c.toNat < 0x7f) (h10 : c.toNat < 0x10000) :
    escape_char c = '\\' :: 'u' :: hex4 c.toNat := by
  have h8 : ¬c.toNat < 0x20 := by omega
  have h1 : c ≠ '"' := by intro heq; rw [heq] at h9; exact h9 (by decide)
  have h2 : c ≠ '\\' := by intro heq; rw [heq] at h9; exact h9 (by decide)
  have h3 : c ≠ '\n' := by intro heq; rw [heq] at h9; exact h9 (by decide)
  have h4 : c ≠ '\r' := by intro heq; rw [heq] at h9; exact h9 (by decide)
  have h5 : c ≠ '\t' := by intro heq; rw [heq] at h9; exact h9 (by decide)
  have h6 : c ≠ '\x08' := by intro heq; rw [heq] at h9; exact h9 (by decide)
  have h7 : c ≠ '\x0c' := by intro heq; rw [heq] at h9; exact h9 (by decide)
  unfold escape_char
  rw [if_neg h1, if_neg h2, if_neg h3, if_neg h4, if_neg h5, if_neg h6, if_neg h7,
    if_neg h8, if_neg h9, if_pos h10]

theorem escape_char_astral (c : Char) (h10 : ¬c.toNat < 0x10000) :
    escape_char c = '\\' :: 'u' :: hex4 (0xD800 + (c.toNat - 0x10000) / 0x400) ++
      '\\' :: 'u' :: hex4 (0xDC00 + (c.toNat - 0x10000) % 0x400) := by
  have h9 : ¬c.toNat < 0x7f := by omega
  have h8 : ¬c.toNat < 0x20 := by omega
  have h1 : c ≠ '"' := by intro heq; rw [heq] at h9; exact h9 (by decide)
  have h2 : c ≠ '\\' := by intro heq; rw [heq] at h9; exact h9 (by decide)
  have h3 : c ≠ '\n' := by intro heq; rw [heq] at h9; exact h9 (by decide)
  have h4 : c ≠ '\r' := by intro heq; rw [heq] at h9; exact h9 (by decide)
  have h5 : c ≠ '\t' := by intro heq; rw [heq] at h9; exact h9 (by decide)
  have h6 : c ≠ '\x08' := by intro heq; rw [heq] at h9; exact h9 (by decide)
  have h7 : c ≠ '\x0c' := by intro heq; rw [heq] at h9; exact h9 (by decide)
  unfold escape_char
  rw [if_neg h1, if_neg h2, if_neg h3, if_neg h4, if_neg h5, if_neg h6, if_neg h7,
    if_neg h8, if_neg h9, if_neg h10]

/-- The tokenizer inverts the escaper on every character. -/
theorem read_tok_escape_char (c : Char) (rest : List Char) :
    read_string_tok (escape_char c ++ rest) = StrTok.ch c rest := by
  have hval := char_valid_range c
  by_cases h1 : c = '"'
  · subst h1; rfl
  by_cases h2 : c = '\\'
  · subst h2; rfl
  by_cases h3 : c = '\n'
  · subst h3; rfl
  by_cases h4 : c = '\r'
  · subst h4; rfl
  by_cases h5 : c = '\t'
  · subst h5; rfl
  by_cases h6 : c = '\x08'
  · subst h6; rfl
  by_cases h7 : c = '\x0c'
  · subst h7; rfl
  by_cases h8 : c.toNat < 0x20
  · rw [escape_char_ctrl c h8 h3 h4 h5 h6 h7]
    rw [show ('\\' :: 'u' :: hex4 c.toNat) ++ rest = '\\' :: 'u' :: (hex4 c.toNat ++ rest)
      by simp]
    rw [read_tok_u, read_u_escape_bmp c.toNat rest (by omega) (by omega), Char.ofNat_toNat]
  by_cases h9 : c.toNat < 0x7f
  · rw [escape_char_print c h8 h9 h1 h2, List.singleton_append]
    exact read_tok_plain c rest h1 h2 h8
  by_cases h10 : c.toNat < 0x10000
  · rw [escape_char_bmp c h9 h10]
    rw [show ('\\' :: 'u' :: hex4 c.toNat) ++ rest = '\\' :: 'u' :: (hex4 c.toNat ++ rest)
      by simp]
    rw [read_tok_u,
      read_u_escape_bmp c.toNat rest h10 (by rcases hval with h | h <;> omega),
      Char.ofNat_toNat]
  · rw [escape_char_astral c h10]
    rw [show ('\\' :: 'u' :: hex4 (0xD800 + (c.toNat - 0x10000) / 0x400) ++
        '\\' :: 'u' :: hex4 (0xDC00 + (c.toNat - 0x10000) % 0x400)) ++ rest =
      '\\' :: 'u' :: (hex4 (0xD800 + (c.toNat - 0x10000) / 0x400) ++
        ('\\' :: 'u' :: (hex4 (0xDC00 + (c.toNat - 0x10000) % 0x400) ++ rest))) by simp]
    rw [read_tok_u,
      read_u_escape_pair c.toNat rest (by omega) (by rcases hval with h | h <;> omega),
      Char.ofNat_toNat]

theorem parse_escape_chars (l rest : List Char) :
    ∀ fuel, l.length < fuel →
    parse_string_body fuel (escape_chars l ++ '"' :: rest) = some (l, rest) := by
  induction l with
  | nil =>
    intro fuel hf
    cases fuel with
    | zero => simp at hf
    | succ f => rfl
  | cons c l ih =>
    intro fuel hf
    cases fuel with
    | zero => simp at hf
    | succ f =>
      rw [show escape_chars (c :: l) ++ '"' :: rest =
        escape_char c ++ (escape_chars l ++ '"' :: rest) by
          rw [show escape_chars (c :: l) = escape_char c ++ escape_chars l from rfl]
          simp]
      unfold parse_string_body
      rw [read_tok_escape_char]
      dsimp only
      rw [ih f (by simp at hf; omega)]
      rfl

theorem encode_string_append (s : String) (Y : List Char) :
    encode_string s ++ Y = '"' :: (escape_chars s.toList ++ '"' :: Y) := by
  unfold encode_string
  simp

theorem length_escape_char_pos (c : Char) : 1 ≤ (escape_char c).length := by
  by_cases h1 : c = '"'
  · subst h1; decide
  by_cases h2 : c = '\\'
  · subst h2; decide
  by_cases h3 : c = '\n'
  · subst h3; decide
  by_cases h4 : c = '\r'
  · subst h4; decide
  by_cases h5 : c = '\t'
  · subst h5; decide
  by_cases h6 : c = '\x08'
  · subst h6; decide
  by_cases h7 : c = '\x0c'
  · subst h7; decide
  by_cases h8 : c.toNat < 0x20
  · rw [escape_char_ctrl c h8 h3 h4 h5 h6 h7]; simp
  by_cases h9 : c.toNat < 0x7f
  · rw [escape_char_print c h8 h9 h1 h2]; simp
  by_cases h10 : c.toNat < 0x10000
  · rw [escape_char_bmp c h9 h10]; simp
  · rw [escape_char_astral c h10]; simp

theorem length_escape_chars (l : List Char) : l.length ≤ (escape_chars l).length := by
  induction l with
  | nil => simp [escape_chars]
  | cons c l ih =>
    rw [show escape_chars (c :: l) = escape_char c ++ escape_chars l from rfl]
    rw [List.length_append, List.length_cons]
    have := length_escape_char_pos c
    omega

/-- A serialized string literal parses back to exactly its text. -/
theorem parse_encode_string (s : String) (rest : List Char) :
    parse_json_string (encode_string s ++ rest) = some (s, rest) := by
  rw [encode_string_append]
  have hlen : s.toList.length < (escape_chars s.toList ++ '"' :: rest).length + 1 := by
    rw [List.length_append]
    have := length_escape_chars s.toList
    simp only [List.length_cons]
    omega
  show Option.map (fun sr => ((⟨sr.1⟩ : String), sr.2))
      (parse_string_body ((escape_chars s.toList ++ '"' :: rest).length + 1)
        (escape_chars s.toList ++ '"' :: rest)) = some (s, rest)
  rw [parse_escape_chars s.toList rest _ hlen]
  rfl

/-! ### The JSON round-trip, part 2: objects -/

theorem skip_ws_nl (l : List Char) : skip_json_ws ('\n' :: l) = skip_json_ws l := rfl

theorem skip_ws_sp (l : List Char) : skip_json_ws (' ' :: l) = skip_json_ws l := rfl

theorem skip_ws_quote (l : List Char) : skip_json_ws ('"' :: l) = '"' :: l := rfl

theorem skip_ws_colon (l : List Char) : skip_json_ws (':' :: l) = ':' :: l := rfl

theorem skip_ws_comma (l : List Char) : skip_json_ws (',' :: l) = ',' :: l := rfl

theorem skip_ws_rbrace (l : List Char) : skip_json_ws ('\x7d' :: l) = '\x7d' :: l := rfl

theorem skip_ws_lbrace (l : List Char) : skip_json_ws ('\x7b' :: l) = '\x7b' :: l := rfl

theorem encode_member_append (kv : String × String) (Z : List Char) :
    encode_member kv ++ Z =
      ' ' :: ' ' :: (encode_string kv.1 ++ (':' :: ' ' :: (encode_string kv.2 ++ Z))) := by
  unfold encode_member
  simp

/-- Parsing one encoded member line consumes it exactly, leaving the
trailing separator decision. -/
theorem parse_members_step (f : Nat) (kv : String × String) (T : List Char) :
    parse_members (f + 1) ('\n' :: (encode_member kv ++ T)) =
      match skip_json_ws T with
      | [] => none
      | c2 :: r4 =>
        if c2 = ',' then (parse_members f r4).map fun mr => ((kv.1, kv.2) :: mr.1, mr.2)
        else if c2 = '\x7d' then some ([(kv.1, kv.2)], r4)
        else none := by
  have hskip1 : skip_json_ws ('\n' :: (encode_member kv ++ T)) =
      encode_string kv.1 ++ (':' :: ' ' :: (encode_string kv.2 ++ T)) := by
    rw [skip_ws_nl, encode_member_append, skip_ws_sp, skip_ws_sp, encode_string_append,
      skip_ws_quote, ← encode_string_append]
  have hskip3 : skip_json_ws (' ' :: (encode_string kv.2 ++ T)) = encode_string kv.2 ++ T := by
    rw [skip_ws_sp, encode_string_append, skip_ws_quote, ← encode_string_append]
  simp only [parse_members]
  rw [hskip1, parse_encode_string]
  dsimp only
  rw [skip_ws_colon]
  dsimp only
  rw [if_pos rfl]
  rw [hskip3, parse_encode_string]

theorem parse_members_encode (rest0 : List Char) :
    ∀ (st : List (String × String)) (fuel : Nat), st ≠ [] → st.length ≤ fuel →
    parse_members fuel ('\n' :: (encode_members st ++ ('\n' :: '\x7d' :: rest0))) =
      some (st, rest0) := by
  intro st
  induction st with
  | nil => intro fuel h _; exact absurd rfl h
  | cons kv st ih =>
    intro fuel _ hfuel
    cases fuel with
    | zero => simp at hfuel
    | succ f =>
      cases st with
      | nil =>
        rw [show encode_members [kv] = encode_member kv from rfl]
        rw [parse_members_step]
        rw [skip_ws_nl, skip_ws_rbrace]
        dsimp only
        rw [if_neg (by decide), if_pos rfl]
      | cons kv2 st2 =>
        rw [show encode_members (kv :: kv2 :: st2) =
          encode_member kv ++ ',' :: '\n' :: encode_members (kv2 :: st2) from rfl]
        rw [show (encode_member kv ++ ',' :: '\n' :: encode_members (kv2 :: st2)) ++
            ('\n' :: '\x7d' :: rest0) =
          encode_member kv ++
            (',' :: ('\n' :: (encode_members (kv2 :: st2) ++ ('\n' :: '\x7d' :: rest0))))
          by simp]
        rw [parse_members_step]
        rw [skip_ws_comma]
        dsimp only
        rw [if_pos rfl]
        rw [ih f (by simp) (by simp only [List.length_cons] at hfuel ⊢; omega)]
        rfl

theorem length_encode_members (st : List (String × String)) :
    st.length ≤ (encode_members st).length := by
  induction st with
  | nil => simp [encode_members]
  | cons kv st ih =>
    cases st with
    | nil => simp [encode_members, encode_member]
    | cons kv2 st2 =>
      rw [show encode_members (kv :: kv2 :: st2) =
        encode_member kv ++ ',' :: '\n' :: encode_members (kv2 :: st2) from rfl]
      rw [List.length_append]
      simp only [List.length_cons] at ih ⊢
      omega

theorem encode_members_cons_append (kv : String × String) (st2 : List (String × String))
    (Z : List Char) : ∃ W, encode_members (kv :: st2) ++ Z = encode_member kv ++ W := by
  cases st2 with
  | nil => exact ⟨Z, rfl⟩
  | cons kv2 st3 =>
    refine ⟨',' :: '\n' :: (encode_members (kv2 :: st3) ++ Z), ?_⟩
    rw [show encode_members (kv :: kv2 :: st3) =
      encode_member kv ++ ',' :: '\n' :: encode_members (kv2 :: st3) from rfl]
    simp

theorem skip_ws_encode_members_head (kv : String × String) (st2 : List (String × String))
    (Z : List Char) : ∃ Y, skip_json_ws (encode_members (kv :: st2) ++ Z) = '"' :: Y := by
  obtain ⟨W, hW⟩ := encode_members_cons_append kv st2 Z
  rw [hW, encode_member_append, skip_ws_sp, skip_ws_sp, encode_string_append, skip_ws_quote]
  exact ⟨_, rfl⟩

/-- `json.loads (json.dumps st)` recovers the state map exactly, for
every string map. -/
theorem json_roundtrip (st : List (String × String)) :
    json_loads_state (json_dumps_state st) = some st := by
  cases st with
  | nil => rfl
  | cons kv st2 =>
    unfold json_dumps_state json_loads_state
    rw [show (⟨'\x7b' :: '\n' :: encode_members (kv :: st2) ++ ['\n', '\x7d']⟩ :
        String).toList =
      '\x7b' :: ('\n' :: (encode_members (kv :: st2) ++ ('\n' :: '\x7d' :: []))) from rfl]
    rw [skip_ws_lbrace]
    dsimp only
    rw [if_pos rfl]
    obtain ⟨Y, hY⟩ := skip_ws_encode_members_head kv st2 ('\n' :: '\x7d' :: [])
    have hscrut : skip_json_ws
        ('\n' :: (encode_members (kv :: st2) ++ ('\n' :: '\x7d' :: []))) = '"' :: Y := by
      rw [skip_ws_nl, hY]
    rw [hscrut]
    dsimp only
    rw [if_neg (by decide)]
    rw [parse_members_encode [] (kv :: st2) _ (by simp) ?_]
    · rfl
    · have h1 := length_encode_members (kv :: st2)
      simp only [List.length_cons, List.length_append] at h1 ⊢
      omega

/-! ### Lemmas about the state sheet under save -/

theorem find_set_cell_self (cells : List SCell) (colId : Nat) (v : String) :
    (set_cell_value cells colId v).find? (fun c => c.column_id = colId) =
      some ⟨colId, some v⟩ := by
  induction cells with
  | nil => simp [set_cell_value, List.find?_cons]
  | cons c cs ih =>
    unfold set_cell_value
    by_cases hc : c.column_id = colId
    · rw [if_pos hc]
      simp [List.find?_cons]
    · rw [if_neg hc]
      rw [List.find?_cons]
      rw [decide_eq_false hc]
      exact ih

theorem find_set_cell_other (cells : List SCell) (colId colId2 : Nat) (v : String)
    (h : colId2 ≠ colId) :
    (set_cell_value cells colId v).find? (fun c => c.column_id = colId2) =
      cells.find? (fun c => c.column_id = colId2) := by
  induction cells with
  | nil => simp [set_cell_value, List.find?_cons, Ne.symm h]
  | cons c cs ih =>
    unfold set_cell_value
    by_cases hc : c.column_id = colId
    · rw [if_pos hc]
      rw [List.find?_cons, List.find?_cons]
      have hne : decide ((⟨colId, some v⟩ : SCell).column_id = colId2) = false :=
        decide_eq_false (by simpa using Ne.symm h)
      have hcc : decide (c.column_id = colId2) = false :=
        decide_eq_false (by rw [hc]; exact Ne.symm h)
      rw [hne, hcc]
    · rw [if_neg hc]
      rw [List.find?_cons, List.find?_cons]
      cases hp : decide (c.column_id = colId2) with
      | true => rfl
      | false => exact ih

theorem upd_row_key (r : SRow) (kc vc : Nat) (v : String) (hkv : kc ≠ vc) :
    is_state_key_row { r with cells := set_cell_value r.cells vc v } kc =
      is_state_key_row r kc := by
  unfold is_state_key_row
  rw [find_set_cell_other r.cells vc kc v hkv]

theorem row_state_value_update (r : SRow) (vc : Nat) (v : String) (hv : v ≠ "") :
    row_state_value { r with cells := set_cell_value r.cells vc v } vc = some v := by
  unfold row_state_value
  rw [find_set_cell_self]
  dsimp only
  rw [if_neg hv]

theorem scan_after_update (rows : List SRow) (kc vc rid : Nat) (v : String)
    (hkv : kc ≠ vc) (hv : v ≠ "") :
    find_state_row_id rows kc = some rid →
    scan_state_rows (rows.map fun r =>
      if r.id = rid then { r with cells := set_cell_value r.cells vc v } else r) kc vc =
      some v := by
  induction rows with
  | nil => intro h; cases h
  | cons row rest ih =>
    intro hfind
    unfold find_state_row_id at hfind
    rw [List.map_cons]
    unfold scan_state_rows
    by_cases hk : is_state_key_row row kc
    · rw [if_pos hk] at hfind
      have hrid : row.id = rid := Option.some.inj hfind
      rw [if_pos hrid]
      rw [if_pos (show is_state_key_row _ kc = true by rw [upd_row_key row kc vc v hkv]; exact hk)]
      rw [row_state_value_update row vc v hv]
    · rw [if_neg hk] at hfind
      by_cases hr : row.id = rid
      · rw [if_pos hr]
        rw [if_neg (show ¬is_state_key_row _ kc = true by
          rw [upd_row_key row kc vc v hkv]; exact hk)]
        exact ih hfind
      · rw [if_neg hr]
        rw [if_neg hk]
        exact ih hfind

theorem scan_no_sentinel (rows : List SRow) (kc vc : Nat) (newRow : SRow) :
    find_state_row_id rows kc = none →
    scan_state_rows (rows ++ [newRow]) kc vc = scan_state_rows [newRow] kc vc := by
  induction rows with
  | nil => intro _; rfl
  | cons row rest ih =>
    intro hfind
    unfold find_state_row_id at hfind
    by_cases hk : is_state_key_row row kc
    · rw [if_pos hk] at hfind; cases hfind
    · rw [if_neg hk] at hfind
      rw [List.cons_append]
      unfold scan_state_rows
      rw [if_neg hk]
      exact ih hfind

theorem scan_new_row (nid kc vc : Nat) (hkv : kc ≠ vc) (v : String) (hv : v ≠ "") :
    scan_state_rows [⟨nid, [⟨kc, some STATE_DATA_KEY⟩, ⟨vc, some v⟩]⟩] kc vc = some v := by
  have hkey : is_state_key_row ⟨nid, [⟨kc, some STATE_DATA_KEY⟩, ⟨vc, some v⟩]⟩ kc = true := by
    unfold is_state_key_row
    rw [List.find?_cons]
    simp
  have hval : row_state_value ⟨nid, [⟨kc, some STATE_DATA_KEY⟩, ⟨vc, some v⟩]⟩ vc = some v := by
    unfold row_state_value
    rw [List.find?_cons]
    have h1 : decide ((⟨kc, some STATE_DATA_KEY⟩ : SCell).column_id = vc) = false := by
      simp [hkv]
    rw [h1]
    rw [List.find?_cons]
    simp [hv]
  unfold scan_state_rows
  rw [if_pos hkey, hval]

theorem get_cols_rows (sh : StateSheet) (rows2 : List SRow) :
    get_state_sheet_columns (some { sh with rows := rows2 }) =
      get_state_sheet_columns (some sh) := rfl

theorem json_dumps_state_ne_empty (st : List (String × String)) : json_dumps_state st ≠ "" := by
  cases st with
  | nil => decide
  | cons kv st2 =>
    intro h
    have h2 := congrArg String.toList h
    simp [json_dumps_state] at h2

/-! ### C8 — save/load round-trip -/

/-- C8.  For every state map, a successful `save_state` followed by
`load_state` over the updated collaborator sheet recovers exactly the
saved map — both when a sentinel state row already exists (its value
cell is updated in place) and when none does (a fresh sentinel row is
appended).  The hypotheses say only that the state sheet resolves its
`key`/`value` columns (to distinct column ids, as the collaborator
guarantees for distinct columns) — the condition for `save_state` not
to raise. -/
theorem c8_save_load_roundtrip (sheet : Option StateSheet) (st : List (String × String))
    (newRowId kc vc : Nat) (hcols : get_state_sheet_columns sheet = some (kc, vc))
    (hkv : kc ≠ vc) :
    ∃ sheet2, save_state sheet st newRowId = some sheet2 ∧
      load_state (some sheet2) = LoadResult.ok st := by
  cases sheet with
  | none => simp [get_state_sheet_columns] at hcols
  | some sh =>
    have hvne := json_dumps_state_ne_empty st
    unfold save_state
    rw [hcols]
    dsimp only
    cases hfind : find_state_row_id sh.rows kc with
    | some rid =>
      refine ⟨_, rfl, ?_⟩
      unfold load_state
      rw [(get_cols_rows sh _).trans hcols]
      dsimp only
      rw [scan_after_update sh.rows kc vc rid (json_dumps_state st) hkv hvne hfind]
      dsimp only
      rw [json_roundtrip]
    | none =>
      refine ⟨_, rfl, ?_⟩
      unfold load_state
      rw [(get_cols_rows sh _).trans hcols]
      dsimp only
      rw [scan_no_sentinel sh.rows kc vc _ hfind,
        scan_new_row newRowId kc vc hkv _ hvne]
      dsimp only
      rw [json_roundtrip]

/-- Witness for C8 at a concrete sheet without a sentinel row. -/
theorem c8_save_load_roundtrip_witness :
    ∃ sheet2, save_state
        (some ⟨[⟨1, some "key"⟩, ⟨2, some "value"⟩], [⟨5, [⟨1, some "Other"⟩]⟩]⟩)
        [("WR-1", "101-001")] 77 = some sheet2 ∧
      load_state (some sheet2) = LoadResult.ok [("WR-1", "101-001")] :=
  c8_save_load_roundtrip
    (some ⟨[⟨1, some "key"⟩, ⟨2, some "value"⟩], [⟨5, [⟨1, some "Other"⟩]⟩]⟩)
    [("WR-1", "101-001")] 77 1 2 (by decide) (by decide)
